import Mathlib

/-!
# Sliver: envelope framing over a named pipe, and the operator console

A shallow embedding of

* `implant/sliver/transports/named-pipe.go`: `namedPipeWriteEnvelope`,
  `namedPipeReadEnvelope` and the receive loop of `namedPipeConnect`;
* `server/console.go`: `getSliver`, `activeSliverRequest`, `psCmd`,
  `printSlivers`, `byteCountBinary`, `lsCmd`, `cdCmd`, and the command loop
  of `startConsole` with `lineReader`;
* `server/rpc/rpc-stager.go`: `StartTCPStagerListener` and `checkInterface`.

Conventions.  A byte is a natural number below 256 and a byte slice is a
`List Nat`.  Go's `int` is taken to be 64 bits wide, so that no length that
occurs here overflows it.  A `net.Conn` is a state that is threaded through
the calls; loops that the source does not bound take a `fuel` argument and
answer `none` when it runs out, which stands for a call that has not
returned.
-/

namespace SliverSpec

/-! ## Errors and the protobuf codec -/

/-- The error values the transport code tells apart: `io.EOF`, any other
transport error, and an error of `proto.Marshal` / `proto.Unmarshal`. -/
inductive Err where
  | eof
  | transport (code : Nat)
  | proto (code : Nat)
  deriving DecidableEq, Repr

/-- `proto.Marshal` and `proto.Unmarshal` for the envelope type, kept
abstract; `empty` is the zero value `&sliverpb.Envelope{}`. -/
structure Codec (Env : Type) where
  Marshal : Env → Except Err (List Nat)
  Unmarshal : List Nat → Except Err Env
  empty : Env

/-- Marshal and Unmarshal form an inverse pair: whatever Marshal produces,
Unmarshal parses back to the same envelope. -/
def Codec.Inverse {Env : Type} (k : Codec Env) : Prop :=
  ∀ e data, k.Marshal e = Except.ok data → k.Unmarshal data = Except.ok e

/-! ## The connection -/

/-- One call of `Write` as the transport saw it: the slice offered, the
number of bytes it accepted and the error it reported. -/
structure WriteRec where
  offered : List Nat
  n : Nat
  err : Option Err
  deriving DecidableEq, Repr

/-- A `net.Conn`.

Read side: `incoming` holds the bytes still to be delivered, cut into the
pieces in which the transport hands them out (one `Read` never returns bytes
of two pieces); when nothing is left `Read` reports `closeErr`.

Write side: `wresp i p` is the transport's answer to the `i`-th `Write` of
the connection when offered the slice `p` (how many bytes it takes, and the
error it reports); `wlog` records the writes made so far, oldest first. -/
structure Conn where
  incoming : List (List Nat)
  closeErr : Err
  wresp : Nat → List Nat → Nat × Option Err
  wlog : List WriteRec

/-- `(*conn).Write(p)`: returns `(n, err)` with `0 ≤ n ≤ len(p)`. -/
def Conn.Write (c : Conn) (p : List Nat) : (Nat × Option Err) × Conn :=
  let r := c.wresp c.wlog.length p
  let n := min r.1 p.length
  ((n, r.2), { c with wlog := c.wlog ++ [{ offered := p, n := n, err := r.2 }] })

/-- `(*conn).Read(buf)` with `len(buf) = cap`: returns the bytes read
(`buf[:n]`) and the error. -/
def Conn.Read (c : Conn) (cap : Nat) : (List Nat × Option Err) × Conn :=
  match c.incoming with
  | [] => (([], some c.closeErr), c)
  | chunk :: rest =>
    if chunk.length ≤ cap then ((chunk, none), { c with incoming := rest })
    else ((chunk.take cap, none), { c with incoming := chunk.drop cap :: rest })

/-- The bytes a sequence of writes put on the wire: of every write the part
the transport accepted, in order. -/
def accepted (l : List WriteRec) : List Nat :=
  (l.map fun r => r.offered.take r.n).flatten

/-! ## Framing -/

/-- The size of the buffer of one payload read. -/
def readBufSizeNamedPipe : Nat := 1024

/-- The size of one chunk of the chunk loop of the writer. -/
def writeBufSizeNamedPipe : Nat := 1024

/-- The conversion `uint32(n)` of a non-negative `int`. -/
def uint32 (n : Nat) : Nat := n % 2 ^ 32

/-- `binary.Write(buf, binary.LittleEndian, v)` for a `uint32` value `v`:
the four bytes of `v`, least significant first. -/
def putUint32LE (v : Nat) : List Nat :=
  [v % 256, v / 256 % 256, v / 65536 % 256, v / 16777216 % 256]

/-- `binary.LittleEndian.Uint32(b)` for a slice of four bytes. -/
def Uint32LE (b : List Nat) : Nat :=
  b.getD 0 0 + 256 * b.getD 1 0 + 65536 * b.getD 2 0 + 16777216 * b.getD 3 0

/-- The chunk loop of `namedPipeWriteEnvelope`:
`for totalWritten < len(data)-writeBufSizeNamedPipe { n, err2 := Write(data[totalWritten : totalWritten+writeBufSizeNamedPipe]); totalWritten += n }`.
The error `err2` is only logged (in debug builds).  Returns the connection
and `totalWritten` at loop exit. -/
def writeLoop : Nat → Conn → List Nat → Nat → Option (Conn × Nat)
  | 0, _, _, _ => none
  | fuel + 1, c, data, totalWritten =>
    if (totalWritten : Int) < (data.length : Int) - (writeBufSizeNamedPipe : Int) then
      let w := c.Write ((data.drop totalWritten).take writeBufSizeNamedPipe)
      writeLoop fuel w.2 data (totalWritten + w.1.1)
    else some (c, totalWritten)

/-- `namedPipeWriteEnvelope(conn, envelope)`.  The result is the returned
error (`none` is `nil`) and the connection afterwards; `none` when the
chunk loop is still running after `fuel` rounds. -/
def namedPipeWriteEnvelope {Env : Type} (fuel : Nat) (k : Codec Env) (conn : Conn)
    (envelope : Env) : Option (Option Err × Conn) :=
  match k.Marshal envelope with
  | Except.error err => some (some err, conn)
  | Except.ok data =>
    -- binary.Write(dataLengthBuf, binary.LittleEndian, uint32(len(data)))
    let dataLengthBuf := putUint32LE (uint32 data.length)
    -- _, err = (*conn).Write(dataLengthBuf.Bytes()); the error is only logged
    let c1 := (conn.Write dataLengthBuf).2
    match writeLoop fuel c1 data 0 with
    | none => none
    | some (c2, totalWritten) =>
      if totalWritten < data.length then
        let missing := data.length - totalWritten
        -- _, err := (*conn).Write(data[totalWritten : totalWritten+missing])
        let c3 := (c2.Write ((data.drop totalWritten).take missing)).2
        some (none, c3)
      else some (none, c2)

/-- The payload loop of `namedPipeReadEnvelope`:
`for { n, err := Read(readBuf); dataBuf = append(dataBuf, readBuf[:n]...); totalRead += n; if totalRead == dataLength { break }; if err != nil { break } }`.
Returns `dataBuf` and the connection at loop exit. -/
def readLoop : Nat → Conn → Nat → List Nat → Nat → Option (List Nat × Conn)
  | 0, _, _, _, _ => none
  | fuel + 1, c, dataLength, dataBuf, totalRead =>
    let r := c.Read readBufSizeNamedPipe
    let dataBuf1 := dataBuf ++ r.1.1
    let totalRead1 := totalRead + r.1.1.length
    if totalRead1 = dataLength then some (dataBuf1, r.2)
    else if r.1.2.isSome then some (dataBuf1, r.2)
    else readLoop fuel r.2 dataLength dataBuf1 totalRead1

/-- The end of `namedPipeReadEnvelope`, after the payload loop:
`envelope := &sliverpb.Envelope{}; err = proto.Unmarshal(dataBuf, envelope); if err != nil { return &sliverpb.Envelope{}, err }; return envelope, nil`. -/
def unmarshalResult {Env : Type} (k : Codec Env) (dataBuf : List Nat) :
    Option Env × Option Err :=
  match k.Unmarshal dataBuf with
  | Except.error err => (some k.empty, some err)
  | Except.ok envelope => (some envelope, none)

/-- `namedPipeReadEnvelope(conn)`.  The result is the returned pair
`(*Envelope, error)` (`none` is `nil`) and the connection afterwards; `none`
when the payload loop is still running after `fuel` rounds. -/
def namedPipeReadEnvelope {Env : Type} (fuel : Nat) (k : Codec Env) (conn : Conn) :
    Option ((Option Env × Option Err) × Conn) :=
  -- dataLengthBuf := make([]byte, 4); _, err := (*conn).Read(dataLengthBuf)
  let r := conn.Read 4
  match r.1.2 with
  | some err => some ((none, some err), r.2)
  | none =>
    let dataLengthBuf := (r.1.1 ++ [0, 0, 0, 0]).take 4
    let dataLength := Uint32LE dataLengthBuf
    match readLoop fuel r.2 dataLength [] 0 with
    | none => none
    | some (dataBuf, c2) => some (unmarshalResult k dataBuf, c2)

/-- The frame of a serialized envelope: its length as four little-endian
bytes, then the bytes themselves. -/
def frame (data : List Nat) : List Nat :=
  putUint32LE (uint32 data.length) ++ data


/-- The number of reads the payload loop can need for a stream: one for
every byte left and one more for every piece. -/
def streamSize (cs : List (List Nat)) : Nat :=
  (cs.map fun ch => ch.length + 1).sum

/-! ## A concrete codec and concrete transports

The theorems below hold for every codec.  For their instances we use a small
codec in the style of the protobuf wire format: a message is a sequence of
fields, each a tag byte followed by its value (`8`: ID, `16`: Type, `26`:
Data with a length byte), zero-valued fields are left out, and values are
below 128 so that every varint is one byte. -/

/-- Modelled from the spec: the message type `sliverpb.Envelope` of the
implant side, generated code outside src/ (spec §3 and §6, Envelope: id,
type, data).  `Typ` is the field `Type`; numbers stand for the integer
fields. -/
structure sliverpb.Envelope where
  ID : Nat
  Typ : Nat
  Data : List Nat
  deriving DecidableEq, Repr

/-- Marshal of the wire codec; it fails for a value that does not fit in one
byte. -/
def wireMarshal (e : sliverpb.Envelope) : Except Err (List Nat) :=
  if e.ID < 128 ∧ e.Typ < 128 ∧ e.Data.length < 128 then
    Except.ok ((if e.ID = 0 then [] else [8, e.ID]) ++ (if e.Typ = 0 then [] else [16, e.Typ])
      ++ (if e.Data = [] then [] else 26 :: e.Data.length :: e.Data))
  else Except.error (Err.proto 1)

/-- The field-by-field parser of the wire codec; a later field overrides an
earlier one, an unknown tag or a field cut short is an error. -/
def wireParse : Nat → List Nat → sliverpb.Envelope → Except Err sliverpb.Envelope
  | _, [], acc => Except.ok acc
  | 0, _ :: _, _ => Except.error (Err.proto 2)
  | fuel + 1, tag :: rest, acc =>
    match rest with
    | [] => Except.error (Err.proto 2)
    | v :: rest2 =>
      if tag = 8 then wireParse fuel rest2 { acc with ID := v }
      else if tag = 16 then wireParse fuel rest2 { acc with Typ := v }
      else if tag = 26 then
        if v ≤ rest2.length then wireParse fuel (rest2.drop v) { acc with Data := rest2.take v }
        else Except.error (Err.proto 2)
      else Except.error (Err.proto 2)

/-- Unmarshal of the wire codec, into the zero envelope. -/
def wireUnmarshal (d : List Nat) : Except Err sliverpb.Envelope :=
  wireParse d.length d { ID := 0, Typ := 0, Data := [] }

/-- The wire codec. -/
def wireCodec : Codec sliverpb.Envelope :=
  { Marshal := wireMarshal, Unmarshal := wireUnmarshal, empty := { ID := 0, Typ := 0, Data := [] } }

/-- A connection that delivers the given pieces and then reports `io.EOF`,
and that accepts every write in full. -/
def pipeOf (chunks : List (List Nat)) : Conn :=
  { incoming := chunks, closeErr := Err.eof, wresp := fun _ p => (p.length, none), wlog := [] }

/-- A connection whose writes never fail and take one byte each. -/
def oneBytePipe : Conn :=
  { incoming := [], closeErr := Err.eof, wresp := fun _ _ => (1, none), wlog := [] }

/-- A connection on which the first write fails, taking nothing, and every
later write is accepted in full. -/
def firstWriteFails : Conn :=
  { incoming := [], closeErr := Err.eof,
    wresp := fun i p => if i = 0 then (0, some (Err.transport 1)) else (p.length, none),
    wlog := [] }

/-- A connection on which every write fails, taking nothing (a pipe whose
other end is gone). -/
def brokenPipe : Conn :=
  { incoming := [], closeErr := Err.transport 1,
    wresp := fun _ _ => (0, some (Err.transport 1)), wlog := [] }

/-- A connection whose writes never fail, that takes 1000 bytes of every
1024-byte write and every shorter write in full. -/
def slowPipe : Conn :=
  { incoming := [], closeErr := Err.eof,
    wresp := fun _ p => if p.length = 1024 then (1000, none) else (p.length, none), wlog := [] }

/-- The codec of envelopes that are their own serialized form (used where a
payload longer than the wire codec allows is needed). -/
def rawCodec : Codec (List Nat) :=
  { Marshal := fun e => Except.ok e, Unmarshal := fun d => Except.ok d, empty := [] }

/-- The writes that one call of `namedPipeWriteEnvelope` makes, in order
(none when the call does not return). -/
def writesOf {Env : Type} (fuel : Nat) (k : Codec Env) (conn : Conn) (envelope : Env) :
    List WriteRec :=
  match namedPipeWriteEnvelope fuel k conn envelope with
  | none => []
  | some r => r.2.wlog.drop conn.wlog.length

/-! ## The receive loop of `namedPipeConnect` -/

/-- What the receive loop has done so far: the envelopes sent on `recv`, the
number of calls of `namedPipeReadEnvelope` made, and whether the loop has
left its `for` (which runs the deferred `connection.Cleanup()`). -/
structure RecvState (Env : Type) where
  published : List (Option Env)
  reads : Nat
  stopped : Bool

/-- The receive loop of `namedPipeConnect`, run over the results of the
successive calls of `namedPipeReadEnvelope`:
`for { envelope, err := namedPipeReadEnvelope(&conn); if err == io.EOF { break }; if err == nil { recv <- envelope } }`.
When the results run out the loop is still in its `for`. -/
def recvLoop {Env : Type} : List (Option Env × Option Err) → RecvState Env → RecvState Env
  | [], st => st
  | (envelope, err) :: rest, st =>
    if err = some Err.eof then
      { st with reads := st.reads + 1, stopped := true }
    else if err = none then
      recvLoop rest { st with published := st.published ++ [envelope], reads := st.reads + 1 }
    else
      recvLoop rest { st with reads := st.reads + 1 }

/-- The receive loop from its start. -/
def namedPipeConnect_recv {Env : Type} (results : List (Option Env × Option Err)) :
    RecvState Env :=
  recvLoop results { published := [], reads := 0, stopped := false }

/-! ## The operator console (`server/console.go`) -/

/-- Modelled from the spec: the message type `pb.Envelope` of the server
side, generated code outside src/ (spec §3 and §6, Envelope: id, type,
data).  `Typ` is the field `Type`. -/
structure pb.Envelope where
  Id : String
  Typ : String
  Data : List Nat
  deriving DecidableEq, Repr

/-- The zero value `pb.Envelope{}`. -/
def pb.Envelope.zero : pb.Envelope := { Id := "", Typ := "", Data := [] }

/-- Modelled from the spec: the session type `Sliver`, which console.go uses
and does not declare (spec §3, Session: numeric id, display name, remote
address, host/user/process identity, os/arch, the link to its connection and
the private pending-request table).  `Send` holds the envelopes put on the
session's send channel, oldest first; `Resp` is the pending-request table
`map[string]chan pb.Envelope`, a list of entries with no key twice, a
channel being named by a number. -/
structure Sliver where
  Id : Int
  Name : String
  Hostname : String
  Username : String
  Uid : String
  Gid : String
  Os : String
  Arch : String
  RemoteAddress : String
  Pid : Int
  Send : List pb.Envelope
  Resp : List (String × Nat)
  deriving DecidableEq, Repr

/-- The map assignment `m[k] = v`: replaces the entry of `k` when there is
one and adds an entry otherwise. -/
def mapSet (m : List (String × Nat)) (k : String) (v : Nat) : List (String × Nat) :=
  if m.any (fun kv => kv.1 = k) then m.map (fun kv => if kv.1 = k then (k, v) else kv)
  else m ++ [(k, v)]

/-- The builtin `delete(m, k)`. -/
def mapDelete (m : List (String × Nat)) (k : String) : List (String × Nat) :=
  m.filter (fun kv => kv.1 ≠ k)

/-- The globals of console.go that the commands read and write: the registry
`hive` (`map[int]*Sliver`, in the order in which a `range` visits it) and
the selected session `activeSliver` (`nil` is `none`).  A session is held by
value: the one `activeSliver` points to is the value of the field. -/
structure Console where
  hive : List (Int × Sliver)
  activeSliver : Option Sliver
  deriving DecidableEq, Repr

/-- `strings.ToUpper`, on ASCII letters. -/
def ToUpper (s : String) : String := String.mk (s.data.map Char.toUpper)

/-- `strconv.Atoi`: an optional sign and at least one decimal digit, nothing
else, the value within the 64-bit `int`; `none` is a non-nil error. -/
def Atoi (s : String) : Option Int :=
  let cs := s.data
  let neg := cs.head? = some '-'
  let ds := if cs.head? = some '-' ∨ cs.head? = some '+' then cs.tail else cs
  if ds = [] ∨ ¬ (ds.all Char.isDigit) then none
  else
    let v : Int := ds.foldl (fun acc c => 10 * acc + ((c.toNat : Int) - 48)) 0
    let w := if neg then -v else v
    if -(2 : Int) ^ 63 ≤ w ∧ w < (2 : Int) ^ 63 then some w else none

/-- `getSliver(name)`:
`id, err := strconv.Atoi(name); name = strings.ToUpper(name); if err == nil { if sliver, ok := (*hive)[id]; ok { return sliver } }; for _, sliver := range *hive { if sliver.Name == name { return sliver } }; return nil`. -/
def getSliver (hive : List (Int × Sliver)) (name : String) : Option Sliver :=
  let id := Atoi name
  let name1 := ToUpper name
  match id.bind (fun i => hive.lookup i) with
  | some sliver => some sliver
  | none => (hive.find? (fun kv => kv.2.Name = name1)).map (fun kv => kv.2)

/-- `activeSliverRequest(msgType, reqId, data)`.  `resp` names the channel
made by `make(chan pb.Envelope)`; `reply` is what the `select` receives:
`some e` when the envelope `e` arrives on `resp` before `cmdTimeout` has
passed, `none` when the timeout fires first.  The deferred
`delete((*activeSliver).Resp, reqId)` and `close(resp)` run on both ways
out.  The result is the returned pair (`none` is a `nil` error) and the
globals afterwards. -/
def activeSliverRequest (st : Console) (msgType reqId : String) (data : List Nat)
    (resp : Nat) (reply : Option pb.Envelope) : (pb.Envelope × Option String) × Console :=
  match st.activeSliver with
  | none => ((pb.Envelope.zero, some "No active sliver"), st)
  | some s =>
    -- (*activeSliver).Resp[reqId] = resp
    let s1 := { s with Resp := mapSet s.Resp reqId resp }
    -- (*activeSliver).Send <- pb.Envelope{Id: reqId, Type: msgType, Data: data}
    let s2 := { s1 with Send := s1.Send ++ [pb.Envelope.mk reqId msgType data] }
    -- defer delete((*activeSliver).Resp, reqId)
    let s3 := { s2 with Resp := mapDelete s2.Resp reqId }
    match reply with
    | some respEnvelope => ((respEnvelope, none), { st with activeSliver := some s3 })
    | none => ((pb.Envelope.zero, some "timeout"), { st with activeSliver := some s3 })

/-- The two outcomes of `flag.FlagSet.Parse` that the commands tell apart. -/
inductive FlagErr where
  | ErrHelp
  | other
  deriving DecidableEq, Repr

/-- Modelled from the spec: an entry of `pb.ProcessList.Processes`, generated
code outside src/ (spec §3, host/user/process identity); the fields are the
ones `psCmd` and `printProcInfo` read. -/
structure pb.Process where
  Pid : Int
  Ppid : Int
  Executable : String
  deriving DecidableEq, Repr

/-- What `psCmd` takes from outside console.go: the result of
`psFlags.Parse(args)` with the values of `--pid` and `--exe`, the id that
`randomId()` returns, `proto.Marshal` of the request, the channel and the
reply of `activeSliverRequest`, and `proto.Unmarshal` of the process list. -/
structure PsEnv where
  parseErr : Option FlagErr
  pidFilter : Int
  exeFilter : String
  reqId : String
  marshalReq : String → List Nat
  resp : Nat
  reply : Option pb.Envelope
  unmarshalList : List Nat → Except String (List pb.Process)

/-- What a command writes to the terminal, piece by piece (`header` is the
table header with its rule). -/
inductive Out where
  | selectActive
  | requesting (name : String)
  | error (msg : String)
  | unmarshalError (msg : String)
  | header
  | procInfo (p : pb.Process)
  | newline
  deriving DecidableEq, Repr

/-- The conversion `int32(x)` of an `int`. -/
def int32 (x : Int) : Int := (x + 2 ^ 31) % 2 ^ 32 - 2 ^ 31

/-- The loop of `psCmd` over the processes: a process is printed once for
each of the three filter tests it passes. -/
def psLines (pidFilter : Int) (exeFilter : String) (procs : List pb.Process) : List Out :=
  procs.flatMap fun proc =>
    (if pidFilter ≠ -1 ∧ proc.Pid = int32 pidFilter then [Out.procInfo proc] else []) ++
    (if exeFilter ≠ "" ∧ exeFilter.isPrefixOf proc.Executable then [Out.procInfo proc]
     else []) ++
    (if pidFilter = -1 ∧ exeFilter = "" then [Out.procInfo proc] else [])

/-- `psCmd(term, args)`: the globals afterwards and the lines written (the
colours that `printProcInfo` adds are left out). -/
def psCmd (st : Console) (_args : List String) (env : PsEnv) : Console × List Out :=
  -- err := psFlags.Parse(args); if err == flag.ErrHelp { return }
  if env.parseErr = some FlagErr.ErrHelp then (st, [])
  else
    match st.activeSliver with
    | none => (st, [Out.selectActive])
    | some s =>
      let r := activeSliverRequest st "psReq" env.reqId (env.marshalReq env.reqId)
        env.resp env.reply
      match r.1.2 with
      | some err => (r.2, [Out.requesting s.Name, Out.error err])
      | none =>
        match env.unmarshalList r.1.1.Data with
        | Except.error err => (r.2, [Out.requesting s.Name, Out.unmarshalError err])
        | Except.ok procs =>
          (r.2, [Out.requesting s.Name, Out.header] ++
            psLines env.pidFilter env.exeFilter procs ++ [Out.newline])

/-- A session for the instances below. -/
def sampleSliver (id : Int) (name : String) : Sliver :=
  { Id := id, Name := name, Hostname := "host", Username := "user", Uid := "0", Gid := "0",
    Os := "windows", Arch := "amd64", RemoteAddress := "10.0.0.1:4444", Pid := 100,
    Send := [], Resp := [] }

/-- A registry with one session, stored under the name "FOO". -/
def upperHive : List (Int × Sliver) := [(1, sampleSliver 1 "FOO")]

/-- A registry with one session, stored under the name "foo". -/
def lowerHive : List (Int × Sliver) := [(1, sampleSliver 1 "foo")]

/-! ## The session table (`printSlivers`) -/

/-- A row of the table that `printSlivers` writes for a session:
`sliver.Id, sliver.Name, sliver.RemoteAddress, sliver.Username, fmt.Sprintf("%s/%s", sliver.Os, sliver.Arch)`. -/
structure SliverRow where
  Id : Int
  Name : String
  RemoteAddress : String
  Username : String
  OsArch : String
  deriving DecidableEq, Repr

/-- The row of a session. -/
def rowOf (sliver : Sliver) : SliverRow :=
  { Id := sliver.Id, Name := sliver.Name, RemoteAddress := sliver.RemoteAddress,
    Username := sliver.Username, OsArch := sliver.Os ++ "/" ++ sliver.Arch }

/-- `sort.Ints(keys)`: the keys in increasing order. -/
def sortInts (keys : List Int) : List Int := keys.insertionSort (fun a b => a ≤ b)

/-- The row loop of `printSlivers`:
`for index, key := range keys { sliver := (*hive)[key]; if activeSliver != nil && activeSliver.Id == sliver.Id { activeIndex = index + 3 }; fmt.Fprintf(table, ...) }`.
Returns the rows written and `activeIndex`; `none` is the nil dereference
of a key that is not in the registry. -/
def printRows (st : Console) : List Int → Nat → Int → Option (List SliverRow × Int)
  | [], _, activeIndex => some ([], activeIndex)
  | key :: keys, index, activeIndex =>
    match st.hive.lookup key with
    | none => none
    | some sliver =>
      let isActive : Bool :=
        match st.activeSliver with
        | some a => decide (a.Id = sliver.Id)
        | none => false
      let activeIndex1 := if isActive then (index : Int) + 3 else activeIndex
      match printRows st keys (index + 1) activeIndex1 with
      | none => none
      | some r => some (rowOf sliver :: r.1, r.2)

/-- `printSlivers(term)`, up to the rendering of the table: the rows in the
order in which they are written, and `activeIndex`, the line of the table
that is printed in green (-1 for none).
`var keys []int; for _, sliver := range *hive { keys = append(keys, sliver.Id) }; sort.Ints(keys)`. -/
def printSlivers (st : Console) : Option (List SliverRow × Int) :=
  let keys := st.hive.map (fun kv => kv.2.Id)
  printRows st (sortInts keys) 0 (-1)

/-- A registry of three sessions, not in the order of their ids. -/
def threeHive : List (Int × Sliver) :=
  [(3, sampleSliver 3 "C"), (1, sampleSliver 1 "A"), (2, sampleSliver 2 "B")]

/-! ## Sizes (`byteCountBinary`) -/

/-- The value of an `int64` expression whose mathematical value is `x`. -/
def wrapInt64 (x : Int) : Int := (x + 2 ^ 63) % 2 ^ 64 - 2 ^ 63

/-- The loop of `byteCountBinary`:
`for n := b / unit; n >= unit; n /= unit { div *= unit; exp++ }`, from the
values of `n`, `div` and `exp` before a test of the condition.  Returns
`div` and `exp` at loop exit. -/
def unitLoop : Nat → Int → Int → Nat → Option (Int × Nat)
  | 0, _, _, _ => none
  | fuel + 1, n, div, exp =>
    if n ≥ 1024 then unitLoop fuel (n.tdiv 1024) (wrapInt64 (div * 1024)) (exp + 1)
    else some (div, exp)

/-- What `byteCountBinary` returns: `fmt.Sprintf("%d B", b)`, or
`fmt.Sprintf("%.1f %ciB", float64(b)/float64(div), "KMGTPE"[exp])`, kept as
the values that go into the format; `indexPanic` is the run-time panic of an
index out of range. -/
inductive ByteCount where
  | bytes (b : Int)
  | scaled (b : Int) (div : Int) (exp : Nat) (unit : Char)
  | indexPanic (exp : Nat)
  deriving DecidableEq, Repr

/-- `byteCountBinary(b)`; `none` when the loop is still running after `fuel`
tests of its condition. -/
def byteCountBinary (fuel : Nat) (b : Int) : Option ByteCount :=
  if b < 1024 then some (ByteCount.bytes b)
  else
    match unitLoop fuel (b.tdiv 1024) 1024 0 with
    | none => none
    | some (div, exp) =>
      match "KMGTPE".data[exp]? with
      | some unit => some (ByteCount.scaled b div exp unit)
      | none => some (ByteCount.indexPanic exp)

/-! ## The stager listener (`server/rpc/rpc-stager.go`) -/

/-- An address of a network interface as `i.Addrs()` returns it, a
`*net.IPNet`: the IP and the length of the mask, both as text. -/
structure IPNet where
  IP : String
  bits : String
  deriving DecidableEq, Repr

/-- `netAddr.String()` of an interface address: the IP, a slash and the
length of the mask, as in "127.0.0.1/8". -/
def IPNet.String (n : IPNet) : String := n.IP ++ "/" ++ n.bits

/-- What `checkInterface` takes from the `net` package: the result of
`net.Interfaces()`, for each interface the result of `i.Addrs()` with every
address as `netAddr.String()` gives it, and `net.ResolveTCPAddr("tcp", s)`
followed by `addr.IP.String()`.  An `Except.error` is a non-nil `err`. -/
structure NetEnv where
  Interfaces : Except String (List (Except String (List String)))
  ResolveTCPAddr : String → Except String String

/-- The inner loop of `checkInterface` over the addresses of one interface:
`for _, netAddr := range addresses { addr, err := net.ResolveTCPAddr("tcp", netAddr.String()); if err != nil { return false }; if addr.IP.String() == a { return true } }`.
`some r` is `return r`, `none` is the end of the loop. -/
def checkAddresses (env : NetEnv) (a : String) : List String → Option Bool
  | [] => none
  | netAddr :: rest =>
    match env.ResolveTCPAddr netAddr with
    | Except.error _ => some false
    | Except.ok ip => if ip = a then some true else checkAddresses env a rest

/-- The outer loop of `checkInterface` over the interfaces:
`for _, i := range interfaces { addresses, err := i.Addrs(); if err != nil { return false }; ... }`. -/
def checkInterfaces (env : NetEnv) (a : String) :
    List (Except String (List String)) → Option Bool
  | [] => none
  | i :: rest =>
    match i with
    | Except.error _ => some false
    | Except.ok addresses =>
      match checkAddresses env a addresses with
      | some r => some r
      | none => checkInterfaces env a rest

/-- `checkInterface(a)`: "verifies if an IP address is attached to an
existing network interface". -/
def checkInterface (env : NetEnv) (a : String) : Bool :=
  match env.Interfaces with
  | Except.error _ => false
  | Except.ok interfaces =>
    match checkInterfaces env a interfaces with
    | some r => r
    | none => false

/-- Modelled from the spec: the request `clientpb.StagerListenerReq`,
generated code outside src/ (spec §6, `StartTCPStagerListener(host, port,
profile, stageData)`). -/
structure StagerListenerReq where
  Host : String
  Port : Nat
  ProfileName : String
  Data : List Nat
  deriving DecidableEq, Repr

/-- What `StartTCPStagerListener` calls outside rpc-stager.go: the `net`
package, `c2.StartTCPStagerListenerJob(host, port, profile, data)`, which
gives the id of the started job or an error, and `db.SaveC2Listener`, which
gives `nil` (`none`) or an error. -/
structure StagerEnv where
  net : NetEnv
  StartTCPStagerListenerJob : String → Nat → String → List Nat → Except String Nat
  SaveC2Listener : Nat → StagerListenerReq → Option String

/-- The conversion `uint16(n)` of a `uint32`. -/
def uint16 (n : Nat) : Nat := n % 2 ^ 16

/-- What a call of `StartTCPStagerListener` did: the host it passed to
`c2.StartTCPStagerListenerJob`, and the returned job id or error. -/
structure StagerResult where
  host : String
  result : Except String Nat

/-- `StartTCPStagerListener(ctx, req)`. -/
def StartTCPStagerListener (env : StagerEnv) (req : StagerListenerReq) : StagerResult :=
  -- host := req.GetHost(); if !checkInterface(req.GetHost()) { host = "0.0.0.0" }
  let host := if checkInterface env.net req.Host then req.Host else "0.0.0.0"
  match env.StartTCPStagerListenerJob host (uint16 req.Port) req.ProfileName req.Data with
  | Except.error err => { host := host, result := Except.error err }
  | Except.ok jobID =>
    match env.SaveC2Listener (uint32 jobID) req with
    | some err => { host := host, result := Except.error err }
    | none => { host := host, result := Except.ok (uint32 jobID) }

/-- `net.ResolveTCPAddr("tcp", address)` followed by `addr.IP.String()`, as
far as the form of the address decides it: `net.SplitHostPort` rejects an
address with no colon ("missing port in address") and an address that does
not start with a bracket and has a colon before its last colon ("too many
colons in address").  Every other address goes to `resolve`, which stands
for the rest of the function. -/
def goResolveTCPAddr (resolve : String → Except String String) (address : String) :
    Except String String :=
  let cs := address.data
  if cs.contains ':' = false then Except.error "missing port in address"
  else if cs.head? = some '[' then resolve address
  else
    let host := ((cs.reverse.dropWhile fun c => c ≠ ':').drop 1).reverse
    if host.contains ':' then Except.error "too many colons in address"
    else resolve address

/-- The `net` package on a machine with the given interfaces, each with its
addresses. -/
def goNet (resolve : String → Except String String) (interfaces : List (List IPNet)) :
    NetEnv :=
  { Interfaces := Except.ok (interfaces.map fun addrs => Except.ok (addrs.map IPNet.String)),
    ResolveTCPAddr := goResolveTCPAddr resolve }

/-- A machine with the loopback interface and one network card. -/
def twoInterfaces : List (List IPNet) :=
  [[{ IP := "127.0.0.1", bits := "8" }], [{ IP := "192.168.1.5", bits := "24" }]]

/-- An environment in which the job start and the save succeed. -/
def stagerEnv : StagerEnv :=
  { net := goNet (fun s => Except.ok s) twoInterfaces,
    StartTCPStagerListenerJob := fun _ _ _ _ => Except.ok 7,
    SaveC2Listener := fun _ _ => none }

/-! ## The command loop and the file commands (`server/console.go`) -/

/-- `unicode.IsSpace`, on ASCII: the space and the characters 9 to 13. -/
def isSpace (c : Char) : Bool := c = ' ' ∨ (9 ≤ c.toNat ∧ c.toNat ≤ 13)

/-- The scan of `strings.Fields`: `cur` is the field being read, reversed,
and `acc` the fields read so far, last first. -/
def fieldsAux : List Char → List Char → List String → List String
  | [], cur, acc => if cur = [] then acc.reverse else (String.mk cur.reverse :: acc).reverse
  | c :: cs, cur, acc =>
    if isSpace c then
      if cur = [] then fieldsAux cs [] acc else fieldsAux cs [] (String.mk cur.reverse :: acc)
    else fieldsAux cs (c :: cur) acc

/-- `strings.Fields(s)`: the maximal runs of characters of `s` that are not
white space, in order; the empty slice when `s` is only white space. -/
def Fields (s : String) : List String := fieldsAux s.data [] []

/-- A `flag.FlagSet` with no flag defined, as the file commands make it with
`flag.NewFlagSet(name, flag.ContinueOnError)`: `args` is the field that
`Args()` returns, empty until `Parse` sets it. -/
structure FlagSet where
  args : List String
  deriving DecidableEq, Repr

/-- `flag.NewFlagSet(name, flag.ContinueOnError)`. -/
def NewFlagSet : FlagSet := { args := [] }

/-- `f.Args()`. -/
def FlagSet.Args (f : FlagSet) : List String := f.args

/-- `f.Parse(arguments)` for a set with no flag defined: an argument that
is not of the form of a flag ends the parse, `--` is dropped and ends it,
`-h`, `-help` (also with two dashes or a value) give `flag.ErrHelp`, and
every other flag is an error.  Returns the error and the set afterwards. -/
def FlagSet.Parse (_f : FlagSet) (arguments : List String) : Option FlagErr × FlagSet :=
  match arguments with
  | [] => (none, { args := [] })
  | s :: rest =>
    let cs := s.data
    if cs.length < 2 ∨ cs.head? ≠ some '-' then (none, { args := arguments })
    else if cs = ['-', '-'] then (none, { args := rest })
    else
      let name := if (cs.drop 1).head? = some '-' then cs.drop 2 else cs.drop 1
      if name = [] ∨ name.head? = some '-' ∨ name.head? = some '=' then
        (some FlagErr.other, { args := arguments })
      else
        let name1 := name.takeWhile fun c => c ≠ '='
        if name1 = "help".data ∨ name1 = "h".data then (some FlagErr.ErrHelp, { args := rest })
        else (some FlagErr.other, { args := rest })

/-- Modelled from the spec: the request `pb.DirListReq`, generated code
outside src/ (spec §6, `ls [path]`). -/
structure pb.DirListReq where
  Id : String
  Path : String
  deriving DecidableEq, Repr

/-- Modelled from the spec: the request `pb.CdReq`, generated code outside
src/ (spec §6, `cd [path]`). -/
structure pb.CdReq where
  Id : String
  Path : String
  deriving DecidableEq, Repr

/-- Modelled from the spec: the reply `pb.DirList`, generated code outside
src/; of its fields `lsCmd` reads `Exists` and `Path` itself, the files go
to `printDirList`. -/
structure pb.DirList where
  Path : String
  Exists : Bool
  Files : List (String × Bool × Int)
  deriving DecidableEq, Repr

/-- Modelled from the spec: the reply `pb.Pwd`, generated code outside src/. -/
structure pb.Pwd where
  Path : String
  Err : String
  deriving DecidableEq, Repr

/-- What the file commands take from outside console.go: the id that
`randomId()` returns, the channel and the reply of `activeSliverRequest`,
and `proto.Marshal` / `proto.Unmarshal` for the messages. -/
structure FsEnv where
  reqId : String
  resp : Nat
  reply : Option pb.Envelope
  marshalDirListReq : pb.DirListReq → List Nat
  marshalCdReq : pb.CdReq → List Nat
  unmarshalDirList : List Nat → Except String pb.DirList
  unmarshalPwd : List Nat → Except String pb.Pwd

/-- What a file command writes to the terminal, piece by piece. -/
inductive FsOut where
  | selectActive
  | error (msg : String)
  | unmarshalError (msg : String)
  | dirList (d : pb.DirList)
  | notExist (path : String)
  | info (path : String)
  | warn (msg : String)
  deriving DecidableEq, Repr

/-- The message of the run-time panic of the index 0 into an empty slice. -/
def indexPanic : String := "index out of range [0] with length 0"

/-- `lsCmd(term, args)`: the globals afterwards and what was written, or the
message of a run-time panic.
`args = lsFlags.Args(); err := lsFlags.Parse(args); if err == flag.ErrHelp { return }; ...; if len(args) < 1 { args = append(args, ".") }; ... Path: args[0]`. -/
def lsCmd (st : Console) (_args : List String) (env : FsEnv) :
    Except String (Console × List FsOut) :=
  let lsFlags := NewFlagSet
  -- args = lsFlags.Args(): the parameter is overwritten before it is read
  let args1 := lsFlags.Args
  let err := (lsFlags.Parse args1).1
  if err = some FlagErr.ErrHelp then Except.ok (st, [])
  else
    match st.activeSliver with
    | none => Except.ok (st, [FsOut.selectActive])
    | some _ =>
      let args2 := if args1.length < 1 then args1 ++ ["."] else args1
      match args2 with
      | [] => Except.error (indexPanic)
      | path :: _ =>
        let data := env.marshalDirListReq { Id := env.reqId, Path := path }
        let r := activeSliverRequest st "dirListReq" env.reqId data env.resp env.reply
        match r.1.2 with
        | some e => Except.ok (r.2, [FsOut.error e])
        | none =>
          match env.unmarshalDirList r.1.1.Data with
          | Except.error e => Except.ok (r.2, [FsOut.unmarshalError e])
          | Except.ok dirList =>
            if dirList.Exists then Except.ok (r.2, [FsOut.dirList dirList])
            else Except.ok (r.2, [FsOut.notExist dirList.Path])

/-- `cdCmd(term, args)`: the globals afterwards and what was written, or the
message of a run-time panic.
`err := cdFlags.Parse(args); if err == flag.ErrHelp { return }; if activeSliver == nil { ...; return }; ... Path: args[0]`. -/
def cdCmd (st : Console) (args : List String) (env : FsEnv) :
    Except String (Console × List FsOut) :=
  let cdFlags := NewFlagSet
  let err := (cdFlags.Parse args).1
  if err = some FlagErr.ErrHelp then Except.ok (st, [])
  else
    match st.activeSliver with
    | none => Except.ok (st, [FsOut.selectActive])
    | some _ =>
      match args with
      | [] => Except.error (indexPanic)
      | path :: _ =>
        let data := env.marshalCdReq { Id := env.reqId, Path := path }
        let r := activeSliverRequest st "cdReq" env.reqId data env.resp env.reply
        match r.1.2 with
        | some e => Except.ok (r.2, [FsOut.error e])
        | none =>
          match env.unmarshalPwd r.1.1.Data with
          | Except.error e => Except.ok (r.2, [FsOut.unmarshalError e])
          | Except.ok pwd =>
            if pwd.Err = "" then Except.ok (r.2, [FsOut.info pwd.Path])
            else Except.ok (r.2, [FsOut.warn pwd.Err])

/-- The handlers that `cmdHandlers` names. -/
inductive Handler where
  | helpCmd | sessionsCmd | infoCmd | useCmd | generateCmd | msfCmd | injectCmd | psCmd
  | pingCmd | killCmd | lsCmd | cdCmd | pwdCmd | downloadCmd | uploadCmd
  deriving DecidableEq, Repr

/-- The table `cmdHandlers`. -/
def cmdHandlers (name : String) : Option Handler :=
  [("help", Handler.helpCmd), ("s", Handler.sessionsCmd), ("sess", Handler.sessionsCmd),
   ("sessions", Handler.sessionsCmd), ("info", Handler.infoCmd), ("use", Handler.useCmd),
   ("gen", Handler.generateCmd), ("generate", Handler.generateCmd), ("msf", Handler.msfCmd),
   ("inject", Handler.injectCmd), ("ps", Handler.psCmd), ("ping", Handler.pingCmd),
   ("kill", Handler.killCmd), ("ls", Handler.lsCmd), ("cd", Handler.cdCmd),
   ("pwd", Handler.pwdCmd), ("download", Handler.downloadCmd),
   ("upload", Handler.uploadCmd)].lookup name

/-- What the command loop takes from outside: the environments of `psCmd`
and of the file commands, and the handlers that are not embedded here, each
as the change it makes to the globals. -/
structure ConsoleEnv where
  ps : PsEnv
  fs : FsEnv
  others : Handler → Console → List String → Console

/-- What one line does to the command loop of `startConsole`: the loop
returns (`exit`), the first word is reported as an invalid command, a
handler has run and the loop goes on, or the process panics. -/
inductive StepResult where
  | exit
  | invalid (word : String) (st : Console)
  | ran (h : Handler) (st : Console)
  | panic (msg : String)
  deriving DecidableEq, Repr

/-- The branch `case line := <-reader` of the loop of `startConsole`:
`if line == "exit" { return }; words := strings.Fields(line); if cmd, ok := cmdHandlers[words[0]]; ok { cmd.(func(*terminal.Terminal, []string))(term, words[1:]) } else { fmt.Fprintf(term, Warn+"Invalid command '%s'\n", words[0]) }; done <- true`. -/
def consoleStep (st : Console) (line : String) (env : ConsoleEnv) : StepResult :=
  if line = "exit" then StepResult.exit
  else
    match Fields line with
    | [] => StepResult.panic (indexPanic)
    | word :: args =>
      match cmdHandlers word with
      | none => StepResult.invalid word st
      | some Handler.lsCmd =>
        match lsCmd st args env.fs with
        | Except.ok r => StepResult.ran Handler.lsCmd r.1
        | Except.error msg => StepResult.panic msg
      | some Handler.cdCmd =>
        match cdCmd st args env.fs with
        | Except.ok r => StepResult.ran Handler.cdCmd r.1
        | Except.error msg => StepResult.panic msg
      | some Handler.psCmd => StepResult.ran Handler.psCmd (psCmd st args env.ps).1
      | some h => StepResult.ran h (env.others h st args)

/-- One round of `lineReader`: what it sends on `reader` for the line and
the error that `term.ReadLine()` returned, `none` when it sends nothing and
reads on.
`if err == io.EOF || strings.HasPrefix(line, "exit") { reader <- "exit"; return }; if err != nil { reader <- "exit"; return }; if line == "" { continue } else { reader <- line }`. -/
def lineReader (line : String) (err : Option Err) : Option String :=
  if err = some Err.eof ∨ "exit".data.isPrefixOf line.data then some "exit"
  else if err ≠ none then some "exit"
  else if line = "" then none
  else some line

/-- An environment of the file commands in which a request is serialized as
its id, a colon and its path, and no reply arrives. -/
def fsEnv : FsEnv :=
  { reqId := "r1", resp := 0, reply := none,
    marshalDirListReq := fun r => (r.Id ++ ":" ++ r.Path).data.map Char.toNat,
    marshalCdReq := fun r => (r.Id ++ ":" ++ r.Path).data.map Char.toNat,
    unmarshalDirList := fun _ => Except.error "no reply",
    unmarshalPwd := fun _ => Except.error "no reply" }
/-! # Theorems -/

/-! ## Lemmas on the write side -/

theorem accepted_append (a b : List WriteRec) : accepted (a ++ b) = accepted a ++ accepted b := by
  simp [accepted]

theorem accepted_single (p : List Nat) (n : Nat) (e : Option Err) :
    accepted [{ offered := p, n := n, err := e }] = p.take n := by
  simp [accepted]

theorem take_chunk_step (l : List Nat) (n m : Nat) (hn : n ≤ 1024) :
    ((l.take 1024).take n) ++ (l.drop n).take m = l.take (n + m) := by
  rw [List.take_take, Nat.min_eq_left hn, List.take_add]

/-- What the chunk loop does on any transport, when it comes to an end: it
only appends writes of 1024-byte slices to the log, the accepted bytes of
these writes are the payload bytes from the old to the new `totalWritten`
with none lost or repeated, and at most 1024 bytes are left to write. -/
theorem writeLoop_spec (fuel : Nat) : ∀ (c : Conn) (data : List Nat) (tw : Nat) (c' : Conn) (tw' : Nat),
    writeLoop fuel c data tw = some (c', tw') → tw ≤ data.length →
    ∃ recs, c'.wlog = c.wlog ++ recs ∧ c'.wresp = c.wresp ∧ c'.incoming = c.incoming ∧
      c'.closeErr = c.closeErr ∧
      accepted recs = (data.drop tw).take (tw' - tw) ∧ tw ≤ tw' ∧ tw' ≤ data.length ∧
      data.length ≤ tw' + 1024 ∧ (tw < data.length → tw' < data.length) ∧
      (∀ r ∈ recs, r.offered.length = 1024) := by
  induction fuel with
  | zero => intro c data tw c' tw' h; simp [writeLoop] at h
  | succ fuel ih =>
    intro c data tw c' tw' h htw
    rw [writeLoop] at h
    split at h
    · rename_i hlt
      have hlt' : tw + 1024 < data.length := by
        simp only [writeBufSizeNamedPipe] at hlt; omega
      have hplen : ((data.drop tw).take 1024).length = 1024 := by
        simp [List.length_take, List.length_drop]; omega
      have hn : (c.Write ((data.drop tw).take writeBufSizeNamedPipe)).1.1 ≤ 1024 := by
        simp only [Conn.Write, writeBufSizeNamedPipe, hplen]; exact Nat.min_le_right _ _
      obtain ⟨recs, h1, h2, h3, h4, h5, h6, h7, h8, h9, h10⟩ := ih _ _ _ _ _ h (by omega)
      generalize hnd : (c.Write ((data.drop tw).take writeBufSizeNamedPipe)).1.1 = n at *
      have hw : (c.Write ((data.drop tw).take writeBufSizeNamedPipe)).2.wlog
          = c.wlog ++ [WriteRec.mk ((data.drop tw).take 1024) n
              (c.wresp c.wlog.length ((data.drop tw).take 1024)).2] := by
        rw [← hnd]; rfl
      refine ⟨WriteRec.mk ((data.drop tw).take 1024) n
              (c.wresp c.wlog.length ((data.drop tw).take 1024)).2 :: recs,
        ?_, ?_, ?_, ?_, ?_, ?_, h7, h8, ?_, ?_⟩
      · rw [h1, hw]; simp
      · rw [h2]; rfl
      · rw [h3]; rfl
      · rw [h4]; rfl
      · have hacc : accepted (WriteRec.mk ((data.drop tw).take 1024) n
              (c.wresp c.wlog.length ((data.drop tw).take 1024)).2 :: recs)
            = ((data.drop tw).take 1024).take n ++ accepted recs := by
          simp [accepted]
        rw [hacc, h5, ← List.drop_drop, take_chunk_step _ _ _ hn]
        congr 1; omega
      · omega
      · intro _; exact h9 (by omega)
      · intro r hr
        rcases List.mem_cons.1 hr with rfl | hr
        · exact hplen
        · exact h10 r hr
    · rename_i hge
      have hge' : data.length ≤ tw + 1024 := by
        simp only [writeBufSizeNamedPipe] at hge; omega
      simp only [Option.some.injEq, Prod.mk.injEq] at h
      obtain ⟨rfl, rfl⟩ := h
      exact ⟨[], by simp, rfl, rfl, rfl, by simp [accepted], le_refl _, htw, hge', id, by simp⟩

/-- The chunk loop comes to an end when every write of a 1024-byte slice
makes progress (the transport takes at least one byte of it). -/
theorem writeLoop_terminates (fuel : Nat) : ∀ (c : Conn) (data : List Nat) (tw : Nat),
    (∀ i p, c.wlog.length ≤ i → p.length = 1024 → 1 ≤ (c.wresp i p).1) → tw ≤ data.length →
    data.length < fuel + tw → ∃ r, writeLoop fuel c data tw = some r := by
  induction fuel with
  | zero =>
    intro c data tw _ h1 h
    exact absurd h (by omega)
  | succ fuel ih =>
    intro c data tw hp htw hf
    rw [writeLoop]
    split
    · rename_i hlt
      have hlt' : tw + 1024 < data.length := by
        simp only [writeBufSizeNamedPipe] at hlt; omega
      have hplen : ((data.drop tw).take 1024).length = 1024 := by
        simp [List.length_take, List.length_drop]; omega
      have hn : 1 ≤ (c.Write ((data.drop tw).take writeBufSizeNamedPipe)).1.1 := by
        simp only [Conn.Write, writeBufSizeNamedPipe, hplen]
        exact Nat.le_min.2 ⟨hp _ _ (le_refl _) hplen, by omega⟩
      have hn2 : (c.Write ((data.drop tw).take writeBufSizeNamedPipe)).1.1 ≤ 1024 := by
        simp only [Conn.Write, writeBufSizeNamedPipe, hplen]; exact Nat.min_le_right _ _
      refine ih _ _ _ (fun i p hi h => hp i p ?_ h) (by omega) (by omega)
      have : (c.Write ((data.drop tw).take writeBufSizeNamedPipe)).2.wlog.length
          = c.wlog.length + 1 := by simp [Conn.Write]
      omega
    · exact ⟨_, rfl⟩

/-- What `namedPipeWriteEnvelope` does on any transport whose 1024-byte
writes make progress: it returns `nil`, and its writes are the length
bytes, then the chunk writes, which put the first `tw` payload bytes on the
wire, then (when payload is left) one write of all the rest. -/
theorem namedPipeWriteEnvelope_spec {Env : Type} (k : Codec Env) (conn : Conn) (envelope : Env)
    (data : List Nat) (fuel : Nat)
    (hm : k.Marshal envelope = Except.ok data)
    (hprog : ∀ i p, conn.wlog.length < i → p.length = 1024 → 1 ≤ (conn.wresp i p).1)
    (hfuel : data.length < fuel) :
    ∃ c' tw loopRecs tailRecs,
      namedPipeWriteEnvelope fuel k conn envelope = some (none, c') ∧
      c'.wresp = conn.wresp ∧ c'.incoming = conn.incoming ∧ c'.closeErr = conn.closeErr ∧
      c'.wlog = conn.wlog ++
        (WriteRec.mk (putUint32LE (uint32 data.length))
          (min (conn.wresp conn.wlog.length (putUint32LE (uint32 data.length))).1 4)
          (conn.wresp conn.wlog.length (putUint32LE (uint32 data.length))).2
          :: (loopRecs ++ tailRecs)) ∧
      accepted loopRecs = data.take tw ∧ (∀ r ∈ loopRecs, r.offered.length = 1024) ∧
      tw ≤ data.length ∧ data.length ≤ tw + 1024 ∧ (0 < data.length → tw < data.length) ∧
      (¬ tw < data.length → tailRecs = []) ∧
      (tw < data.length → tailRecs = [WriteRec.mk (data.drop tw)
          (min (conn.wresp (conn.wlog.length + 1 + loopRecs.length) (data.drop tw)).1
            (data.length - tw))
          (conn.wresp (conn.wlog.length + 1 + loopRecs.length) (data.drop tw)).2]) := by
  obtain ⟨⟨c2, tw⟩, hloop⟩ := writeLoop_terminates fuel
    (conn.Write (putUint32LE (uint32 data.length))).2 data 0
    (fun i p hi hp => hprog i p (by
      have : (conn.Write (putUint32LE (uint32 data.length))).2.wlog.length
          = conn.wlog.length + 1 := by simp [Conn.Write]
      omega) hp) (Nat.zero_le _) (by omega)
  obtain ⟨recs, h1, h2, h3, h4, h5, -, h7, h8, h9, h10⟩ :=
    writeLoop_spec fuel _ data 0 c2 tw hloop (Nat.zero_le _)
  have hdrop : (data.drop tw).take (data.length - tw) = data.drop tw := by
    apply List.take_of_length_le; simp
  have hw1 : (conn.Write (putUint32LE (uint32 data.length))).2.wlog = conn.wlog ++
      [WriteRec.mk (putUint32LE (uint32 data.length))
          (min (conn.wresp conn.wlog.length (putUint32LE (uint32 data.length))).1 4)
          (conn.wresp conn.wlog.length (putUint32LE (uint32 data.length))).2] := rfl
  have hlen2 : c2.wlog.length = conn.wlog.length + 1 + recs.length := by
    rw [h1, hw1]; simp; omega
  have h2' : c2.wresp = conn.wresp := h2
  have hw3 : (c2.Write (data.drop tw)).2.wlog = c2.wlog ++
      [WriteRec.mk (data.drop tw)
        (min (c2.wresp c2.wlog.length (data.drop tw)).1 (data.drop tw).length)
        (c2.wresp c2.wlog.length (data.drop tw)).2] := rfl
  by_cases htl : tw < data.length
  · refine ⟨(c2.Write ((data.drop tw).take (data.length - tw))).2, tw, recs, _, ?_,
      ?_, ?_, ?_, ?_, ?_, h10, h7, h8, h9, fun h => absurd htl h, fun _ => rfl⟩
    · simp only [namedPipeWriteEnvelope, hm, hloop, if_pos htl]
    · exact h2
    · exact h3
    · exact h4
    · rw [hdrop, hw3, hlen2, h2', h1, hw1, List.length_drop]
      simp
    · simpa using h5
  · refine ⟨c2, tw, recs, [], ?_, h2, h3, h4, ?_, ?_, h10, h7, h8, h9, fun _ => rfl,
      fun h => absurd h htl⟩
    · simp only [namedPipeWriteEnvelope, hm, hloop, if_neg htl]
    · rw [h1, hw1]; simp
    · simpa using h5

/-- The four length bytes are bytes. -/
theorem putUint32LE_length (v : Nat) : (putUint32LE v).length = 4 := rfl

/-- On a transport that accepts every write in full, `namedPipeWriteEnvelope`
puts exactly the frame on the wire (shared by the framing and the round-trip
theorems). -/
theorem namedPipeWriteEnvelope_full {Env : Type} (k : Codec Env) (conn : Conn)
    (envelope : Env) (data : List Nat) (fuel : Nat)
    (hm : k.Marshal envelope = Except.ok data) (hN : data.length < 2 ^ 32)
    (hfull : ∀ i p, p.length ≤ (conn.wresp i p).1) (hfuel : data.length < fuel) :
    ∃ c' recs, namedPipeWriteEnvelope fuel k conn envelope = some (none, c') ∧
      c'.wlog = conn.wlog ++ recs ∧
      accepted recs = putUint32LE data.length ++ data ∧
      (recs.head?.map fun r => r.offered) = some (putUint32LE data.length) ∧
      ∀ r ∈ recs.tail, r.offered.length ≤ 1024 := by
  obtain ⟨c', tw, loopRecs, tailRecs, hrun, -, -, -, hlog, hacc, hsz, h7, h8, -, ht0, ht1⟩ :=
    namedPipeWriteEnvelope_spec k conn envelope data fuel hm
      (fun i p _ hp => by have := hfull i p; omega) hfuel
  have hu : uint32 data.length = data.length := Nat.mod_eq_of_lt hN
  rw [hu] at hlog
  refine ⟨c', _, hrun, hlog, ?_, rfl, ?_⟩
  · have h4 : min (conn.wresp conn.wlog.length (putUint32LE data.length)).1 4 = 4 := by
      have := hfull conn.wlog.length (putUint32LE data.length)
      rw [putUint32LE_length] at this
      exact Nat.min_eq_right this
    have hcons : ∀ (r : WriteRec) (l : List WriteRec),
        accepted (r :: l) = r.offered.take r.n ++ accepted l := by
      intro r l; simp [accepted]
    rw [hcons, accepted_append, hacc, h4]
    have htail : accepted tailRecs = data.drop tw := by
      by_cases htl : tw < data.length
      · rw [ht1 htl, accepted_single]
        have := hfull (conn.wlog.length + 1 + loopRecs.length) (data.drop tw)
        rw [List.length_drop] at this
        rw [Nat.min_eq_right this]
        apply List.take_of_length_le; simp
      · rw [ht0 htl]
        have : data.length ≤ tw := by omega
        simp [accepted, List.drop_eq_nil_of_le this]
    rw [htail, List.take_append_drop]
    simp [putUint32LE]
  · intro r hr
    simp only [List.tail_cons] at hr
    rcases List.mem_append.1 hr with hr | hr
    · exact le_of_eq (hsz r hr)
    · by_cases htl : tw < data.length
      · rw [ht1 htl] at hr
        simp only [List.mem_singleton] at hr
        subst hr
        simp only [List.length_drop]; omega
      · rw [ht0 htl] at hr; simp at hr

/-! ## Lemmas on the read side -/

theorem Uint32LE_putUint32LE (v : Nat) (hv : v < 2 ^ 32) :
    Uint32LE (putUint32LE v) = v := by
  simp only [Uint32LE, putUint32LE, List.getD_cons_zero, List.getD_cons_succ]
  omega

theorem Conn.Read_nil (c : Conn) (cap : Nat) (h : c.incoming = []) :
    c.Read cap = (([], some c.closeErr), c) := by
  simp [Conn.Read, h]

theorem Conn.Read_cons (c : Conn) (cap : Nat) (ch : List Nat) (rest : List (List Nat))
    (h : c.incoming = ch :: rest) :
    (c.Read cap).1 = (ch.take cap, none) ∧ (c.Read cap).2.wlog = c.wlog ∧
    (c.Read cap).2.wresp = c.wresp ∧ (c.Read cap).2.closeErr = c.closeErr ∧
    ((ch.length ≤ cap ∧ (c.Read cap).2.incoming = rest) ∨
     (cap < ch.length ∧ (c.Read cap).2.incoming = ch.drop cap :: rest)) := by
  by_cases hc : ch.length ≤ cap
  · simp [Conn.Read, h, hc, List.take_of_length_le hc]
  · simp [Conn.Read, h, hc]; omega

/-- The payload loop on a stream that holds no more than the bytes still
missing: it reads the stream to its end and returns everything it read. -/
theorem readLoop_drain (fuel : Nat) : ∀ (c : Conn) (dl : Nat) (buf : List Nat) (tr : Nat),
    tr = buf.length → buf.length + c.incoming.flatten.length ≤ dl →
    streamSize c.incoming < fuel →
    ∃ c', readLoop fuel c dl buf tr = some (buf ++ c.incoming.flatten, c') ∧
      c'.incoming.flatten = [] ∧ c'.wlog = c.wlog ∧ c'.wresp = c.wresp ∧
      c'.closeErr = c.closeErr := by
  induction fuel with
  | zero => intro c dl buf tr _ _ h; exact absurd h (Nat.not_lt_zero _)
  | succ fuel ih =>
    intro c dl buf tr htr hle hfuel
    rw [readLoop]
    cases hin : c.incoming with
    | nil =>
      rw [Conn.Read_nil c _ hin]
      refine ⟨c, ?_, by simp [hin], rfl, rfl, rfl⟩
      by_cases h : tr + ([] : List Nat).length = dl <;> simp [h]
    | cons ch rest =>
      obtain ⟨h1, h2, h3, h4, h5⟩ := Conn.Read_cons c readBufSizeNamedPipe ch rest hin
      rw [hin] at hle hfuel
      simp only [List.flatten_cons, List.length_append, streamSize, List.map_cons,
        List.sum_cons] at hle hfuel
      simp only [h1, Option.isSome_none, Bool.false_eq_true, if_false]
      have htk : (ch.take readBufSizeNamedPipe).length ≤ ch.length := by
        simp [List.length_take]
      by_cases heq : tr + (ch.take readBufSizeNamedPipe).length = dl
      · -- everything has been read
        have hrest : rest.flatten.length = 0 := by omega
        have hall : (ch.take readBufSizeNamedPipe).length = ch.length := by omega
        have hch : ch.take readBufSizeNamedPipe = ch := by
          apply List.take_of_length_le
          simp only [List.length_take] at hall; omega
        have hrest' : rest.flatten = [] := List.length_eq_zero.1 hrest
        refine ⟨(c.Read readBufSizeNamedPipe).2, ?_, ?_, h2, h3, h4⟩
        · rw [if_pos heq]; simp [hch, hrest']
        · rcases h5 with ⟨-, h5⟩ | ⟨hlt, -⟩
          · rw [h5]; exact hrest'
          · rw [hch] at hall; simp only [List.length_take] at hall
            have : (ch.take readBufSizeNamedPipe).length = readBufSizeNamedPipe := by
              simp [List.length_take]; omega
            rw [hch] at this; omega
      · rw [if_neg heq]
        have hflat : (ch.take readBufSizeNamedPipe) ++ (c.Read readBufSizeNamedPipe).2.incoming.flatten
            = ch ++ rest.flatten := by
          rcases h5 with ⟨hle5, h5⟩ | ⟨hlt, h5⟩
          · rw [h5, List.take_of_length_le hle5]
          · rw [h5, List.flatten_cons, ← List.append_assoc, List.take_append_drop]
        have hsz : streamSize (c.Read readBufSizeNamedPipe).2.incoming < fuel := by
          rcases h5 with ⟨hle5, h5⟩ | ⟨hlt, h5⟩
          · rw [h5]; simp only [streamSize]; omega
          · rw [h5]
            simp only [streamSize, List.map_cons, List.sum_cons, List.length_drop]
            simp only [readBufSizeNamedPipe] at hlt ⊢
            omega
        have hlen : (buf ++ ch.take readBufSizeNamedPipe).length +
            (c.Read readBufSizeNamedPipe).2.incoming.flatten.length ≤ dl := by
          have := congrArg List.length hflat
          simp only [List.length_append] at this ⊢
          omega
        obtain ⟨c', hr, hf, hw, hwr, hce⟩ := ih (c.Read readBufSizeNamedPipe).2 dl
          (buf ++ ch.take readBufSizeNamedPipe) (tr + (ch.take readBufSizeNamedPipe).length)
          (by simp [htr]) hlen hsz
        refine ⟨c', ?_, hf, hw.trans h2, hwr.trans h3, hce.trans h4⟩
        rw [hr, List.append_assoc, hflat]
        simp

theorem flatten_length_pos_of_nonempty (cs : List (List Nat)) (hne : ∀ ch ∈ cs, ch ≠ [])
    (h : cs ≠ []) : 0 < cs.flatten.length := by
  cases cs with
  | nil => exact absurd rfl h
  | cons ch rest =>
    have : ch ≠ [] := hne ch (List.mem_cons_self _ _)
    have : 0 < ch.length := List.length_pos.2 this
    simp only [List.flatten_cons, List.length_append]; omega

/-- The payload loop on a stream whose reads never run over the end of the
frame: when the pieces `cs1` hold exactly the bytes still missing, at least
one, the loop reads just these and leaves the pieces after them unread. -/
theorem readLoop_exact (fuel : Nat) : ∀ (c : Conn) (dl : Nat) (buf : List Nat) (tr : Nat)
    (cs1 cs2 : List (List Nat)),
    c.incoming = cs1 ++ cs2 → (∀ ch ∈ cs1, ch ≠ []) → cs1 ≠ [] →
    tr = buf.length → buf.length + cs1.flatten.length = dl → streamSize cs1 ≤ fuel →
    ∃ c', readLoop fuel c dl buf tr = some (buf ++ cs1.flatten, c') ∧
      c'.incoming = cs2 ∧ c'.wlog = c.wlog ∧ c'.wresp = c.wresp ∧
      c'.closeErr = c.closeErr := by
  induction fuel with
  | zero =>
    intro c dl buf tr cs1 cs2 _ _ hne _ _ hf
    cases cs1 with
    | nil => exact absurd rfl hne
    | cons ch rest => simp [streamSize] at hf
  | succ fuel ih =>
    intro c dl buf tr cs1 cs2 hin hch hne htr hdl hf
    cases cs1 with
    | nil => exact absurd rfl hne
    | cons ch rest1 =>
      have hin' : c.incoming = ch :: (rest1 ++ cs2) := by rw [hin]; rfl
      obtain ⟨h1, h2, h3, h4, h5⟩ := Conn.Read_cons c readBufSizeNamedPipe ch _ hin'
      have hchne : 0 < ch.length := List.length_pos.2 (hch ch (List.mem_cons_self _ _))
      have hrest : ∀ x ∈ rest1, x ≠ [] := fun x hx => hch x (List.mem_cons_of_mem _ hx)
      simp only [List.flatten_cons, List.length_append] at hdl
      simp only [streamSize, List.map_cons, List.sum_cons] at hf
      rw [readLoop]
      simp only [h1, Option.isSome_none, Bool.false_eq_true, if_false]
      rcases h5 with ⟨hle5, h5⟩ | ⟨hlt, h5⟩
      · -- the whole piece fits into the read buffer
        rw [List.take_of_length_le hle5]
        by_cases heq : tr + ch.length = dl
        · have hz : rest1.flatten.length = 0 := by omega
          have hr1 : rest1 = [] := by
            by_contra hcon
            have := flatten_length_pos_of_nonempty rest1 hrest hcon
            omega
          refine ⟨(c.Read readBufSizeNamedPipe).2, ?_, ?_, h2, h3, h4⟩
          · rw [if_pos heq, hr1]; simp
          · rw [h5, hr1]; rfl
        · rw [if_neg heq]
          have hr1 : rest1 ≠ [] := by
            intro hcon; rw [hcon] at hdl; simp at hdl; omega
          obtain ⟨c', hr, hi, hw, hwr, hce⟩ := ih (c.Read readBufSizeNamedPipe).2 dl
            (buf ++ ch) (tr + ch.length) rest1 cs2 h5 hrest hr1 (by simp [htr])
            (by simp only [List.length_append]; omega) (by simp only [streamSize]; omega)
          refine ⟨c', ?_, hi, hw.trans h2, hwr.trans h3, hce.trans h4⟩
          rw [hr]; simp
      · -- the piece is longer than the read buffer
        have htl : (ch.take readBufSizeNamedPipe).length = readBufSizeNamedPipe := by
          simp only [List.length_take]; omega
        have heq : ¬ tr + (ch.take readBufSizeNamedPipe).length = dl := by
          rw [htl]; omega
        rw [if_neg heq]
        have hdne : ∀ x ∈ ch.drop readBufSizeNamedPipe :: rest1, x ≠ [] := by
          intro x hx
          rcases List.mem_cons.1 hx with rfl | hx
          · apply List.ne_nil_of_length_pos; simp only [List.length_drop]; omega
          · exact hrest x hx
        obtain ⟨c', hr, hi, hw, hwr, hce⟩ := ih (c.Read readBufSizeNamedPipe).2 dl
          (buf ++ ch.take readBufSizeNamedPipe) (tr + (ch.take readBufSizeNamedPipe).length)
          (ch.drop readBufSizeNamedPipe :: rest1) cs2 (by rw [h5]; rfl) hdne (by simp)
          (by simp [htr])
          (by
            simp only [List.length_append, List.flatten_cons, List.length_drop, htl]
            have : readBufSizeNamedPipe < ch.length := hlt
            omega)
          (by
            simp only [streamSize, List.map_cons, List.sum_cons, List.length_drop]
            have : readBufSizeNamedPipe < ch.length := hlt
            simp only [readBufSizeNamedPipe] at this ⊢
            omega)
        refine ⟨c', ?_, hi, hw.trans h2, hwr.trans h3, hce.trans h4⟩
        have hcat : buf ++ ch.take readBufSizeNamedPipe ++
            (ch.drop readBufSizeNamedPipe :: rest1).flatten = buf ++ (ch :: rest1).flatten := by
          simp only [List.flatten_cons, List.append_assoc]
          rw [← List.append_assoc (ch.take _), List.take_append_drop]
        rw [hr, hcat]

/-- The first read of `namedPipeReadEnvelope`, when the first piece of the
stream holds at least the four length bytes. -/
theorem Conn.Read_header (c : Conn) (first : List Nat) (rest : List (List Nat))
    (hin : c.incoming = first :: rest) (h4 : 4 ≤ first.length) :
    (c.Read 4).1 = (first.take 4, none) ∧
    ((first.take 4 ++ [0, 0, 0, 0]).take 4 = first.take 4) ∧
    (c.Read 4).2.wlog = c.wlog ∧ (c.Read 4).2.wresp = c.wresp ∧
    (c.Read 4).2.closeErr = c.closeErr ∧
    ((first.length = 4 ∧ (c.Read 4).2.incoming = rest) ∨
     (4 < first.length ∧ (c.Read 4).2.incoming = first.drop 4 :: rest)) := by
  obtain ⟨h1, h2, h3, h5, h6⟩ := Conn.Read_cons c 4 first rest hin
  refine ⟨h1, ?_, h2, h3, h5, ?_⟩
  · apply List.take_append_of_le_length ?_ |>.trans
    · simp
    · simp [List.length_take]; omega
  · rcases h6 with ⟨h, h'⟩ | ⟨h, h'⟩
    · exact Or.inl ⟨by omega, h'⟩
    · exact Or.inr ⟨h, h'⟩

/-- Cutting a stream whose bytes are `hdr ++ payload`, with `hdr` of four
bytes, after the first four bytes of its first piece. -/
theorem split_header (first : List Nat) (rest : List (List Nat)) (hdr payload : List Nat)
    (h4 : 4 ≤ first.length) (hl : hdr.length = 4)
    (hfl : (first :: rest).flatten = hdr ++ payload) :
    first.take 4 = hdr ∧ first.drop 4 ++ rest.flatten = payload := by
  simp only [List.flatten_cons] at hfl
  have h1 : (first ++ rest.flatten).take 4 = hdr := by
    rw [hfl, List.take_left' hl]
  have h2 : (first ++ rest.flatten).drop 4 = payload := by
    rw [hfl, List.drop_left' hl]
  rw [List.take_append_of_le_length h4] at h1
  rw [List.drop_append_of_le_length h4] at h2
  exact ⟨h1, h2⟩

theorem wireCodec_inverse : wireCodec.Inverse := by
  intro e data h
  obtain ⟨i, t, d⟩ := e
  simp only [wireCodec, wireMarshal] at h
  split at h
  · simp only [Except.ok.injEq] at h
    subst h
    by_cases hi : i = 0 <;> by_cases ht : t = 0 <;> by_cases hd : d = [] <;>
      simp [wireCodec, wireUnmarshal, wireParse, hi, ht, hd]
  · simp at h

theorem streamSize_append (a b : List (List Nat)) :
    streamSize (a ++ b) = streamSize a + streamSize b := by
  simp [streamSize]

theorem streamSize_after_header (first : List Nat) (rest : List (List Nat)) :
    streamSize rest ≤ streamSize (first :: rest) ∧
    streamSize (first.drop 4 :: rest) ≤ streamSize (first :: rest) := by
  simp only [streamSize, List.map_cons, List.sum_cons, List.length_drop]
  omega

/-- `namedPipeReadEnvelope` on a stream that ends with (or before the end
of) the frame it starts with, the length bytes arriving in the first read:
the loop hands Unmarshal all payload bytes that arrived. -/
theorem namedPipeReadEnvelope_drain {Env : Type} (k : Codec Env) (conn : Conn)
    (first : List Nat) (rest : List (List Nat)) (payload : List Nat) (v fuel : Nat)
    (hin : conn.incoming = first :: rest) (h4 : 4 ≤ first.length)
    (hfl : (first :: rest).flatten = putUint32LE v ++ payload) (hv : v < 2 ^ 32)
    (hle : payload.length ≤ v) (hfuel : streamSize conn.incoming < fuel) :
    ∃ c', namedPipeReadEnvelope fuel k conn = some (unmarshalResult k payload, c') ∧
      c'.incoming.flatten = [] ∧ c'.wlog = conn.wlog := by
  obtain ⟨h1, h2, h3, h5, h6, h7⟩ := Conn.Read_header conn first rest hin h4
  obtain ⟨ht, hp⟩ := split_header first rest _ payload h4 (putUint32LE_length v) hfl
  have hfl2 : (conn.Read 4).2.incoming.flatten = payload := by
    rcases h7 with ⟨hl, h7⟩ | ⟨hl, h7⟩
    · rw [h7, ← hp, List.drop_of_length_le (le_of_eq hl)]; rfl
    · rw [h7, ← hp]; rfl
  have hsz : streamSize (conn.Read 4).2.incoming < fuel := by
    rw [hin] at hfuel
    have := streamSize_after_header first rest
    rcases h7 with ⟨_, h7⟩ | ⟨_, h7⟩ <;> rw [h7] <;> omega
  obtain ⟨c', hr, hf, hw, -, -⟩ := readLoop_drain fuel (conn.Read 4).2 v [] 0 rfl
    (by rw [hfl2]; simpa using hle) hsz
  have h2' : (putUint32LE v ++ [0, 0, 0, 0]).take 4 = putUint32LE v := by
    simp [putUint32LE]
  refine ⟨c', ?_, hf, hw.trans h3⟩
  simp only [namedPipeReadEnvelope, h1, ht, h2', Uint32LE_putUint32LE v hv, hr, hfl2,
    List.nil_append]

/-- `namedPipeReadEnvelope` on a stream that goes on after the frame it
starts with, when no read runs over the end of that frame. -/
theorem namedPipeReadEnvelope_exact {Env : Type} (k : Codec Env) (conn : Conn)
    (first : List Nat) (rest cs2 : List (List Nat)) (payload : List Nat) (fuel : Nat)
    (hin : conn.incoming = (first :: rest) ++ cs2) (h4 : 4 ≤ first.length)
    (hne : ∀ ch ∈ rest, ch ≠ [])
    (hfl : (first :: rest).flatten = frame payload) (hN0 : 0 < payload.length)
    (hN : payload.length < 2 ^ 32) (hfuel : streamSize (first :: rest) < fuel) :
    ∃ c', namedPipeReadEnvelope fuel k conn = some (unmarshalResult k payload, c') ∧
      c'.incoming = cs2 ∧ c'.wlog = conn.wlog ∧ c'.wresp = conn.wresp ∧
      c'.closeErr = conn.closeErr := by
  have hin' : conn.incoming = first :: (rest ++ cs2) := by rw [hin]; rfl
  obtain ⟨h1, h2, h3, h5, h6, h7⟩ := Conn.Read_header conn first (rest ++ cs2) hin' h4
  have hu : uint32 payload.length = payload.length := Nat.mod_eq_of_lt hN
  rw [frame, hu] at hfl
  obtain ⟨ht, hp⟩ := split_header first rest _ payload h4 (putUint32LE_length _) hfl
  have hsz := streamSize_after_header first rest
  have key : ∃ cs1, (conn.Read 4).2.incoming = cs1 ++ cs2 ∧ (∀ ch ∈ cs1, ch ≠ []) ∧
      cs1.flatten = payload ∧ streamSize cs1 ≤ fuel := by
    rcases h7 with ⟨hl, h7⟩ | ⟨hl, h7⟩
    · refine ⟨rest, h7, hne, ?_, by omega⟩
      rw [← hp, List.drop_of_length_le (le_of_eq hl)]; rfl
    · refine ⟨first.drop 4 :: rest, by rw [h7]; rfl, ?_, by rw [← hp]; rfl, by omega⟩
      intro x hx
      rcases List.mem_cons.1 hx with rfl | hx
      · apply List.ne_nil_of_length_pos; simp only [List.length_drop]; omega
      · exact hne x hx
  obtain ⟨cs1, hc1, hc2, hc3, hc4⟩ := key
  have hcs1 : cs1 ≠ [] := by
    intro h; rw [h] at hc3; rw [← hc3] at hN0; simp at hN0
  obtain ⟨c', hr, hi, hw, hwr, hce⟩ := readLoop_exact fuel (conn.Read 4).2 payload.length [] 0
    cs1 cs2 hc1 hc2 hcs1 rfl (by rw [hc3]; simp) hc4
  have h2' : (putUint32LE payload.length ++ [0, 0, 0, 0]).take 4
      = putUint32LE payload.length := by
    simp [putUint32LE]
  refine ⟨c', ?_, hi, hw.trans h3, hwr.trans h5, hce.trans h6⟩
  simp only [namedPipeReadEnvelope, h1, ht, h2', Uint32LE_putUint32LE _ hN, hr, hc3,
    List.nil_append]

/-! ## The framing claims -/

/-- Claim C1 (round trip, as amended).  For every envelope `e` whose
serialized form is shorter than 2^32 bytes (the empty one and those longer
than a 1024-byte read buffer included), `namedPipeWriteEnvelope` on a
transport that accepts every write in full returns `nil`, and
`namedPipeReadEnvelope` on a stream that holds exactly the bytes written
returns `e` with no error, however the transport cuts these bytes into
reads, provided the first read delivers the four length bytes. -/
theorem namedPipe_round_trip {Env : Type} (k : Codec Env) (hk : k.Inverse) (e : Env)
    (data : List Nat) (hm : k.Marshal e = Except.ok data) (hN : data.length < 2 ^ 32)
    (wconn : Conn) (hfull : ∀ i p, p.length ≤ (wconn.wresp i p).1)
    (wfuel : Nat) (hwf : data.length < wfuel) :
    ∃ wc' recs, namedPipeWriteEnvelope wfuel k wconn e = some (none, wc') ∧
      wc'.wlog = wconn.wlog ++ recs ∧
      ∀ (rconn : Conn) (first : List Nat) (rest : List (List Nat)) (fuel : Nat),
        rconn.incoming = first :: rest → 4 ≤ first.length →
        (first :: rest).flatten = accepted recs → streamSize rconn.incoming < fuel →
        ∃ rc', namedPipeReadEnvelope fuel k rconn = some ((some e, none), rc') ∧
          rc'.incoming.flatten = [] := by
  obtain ⟨wc', recs, hw, hlog, hacc, -, -⟩ :=
    namedPipeWriteEnvelope_full k wconn e data wfuel hm hN hfull hwf
  refine ⟨wc', recs, hw, hlog, ?_⟩
  intro rconn first rest fuel hin h4 hfl hfuel
  rw [hacc] at hfl
  obtain ⟨rc', hr, hf, -⟩ := namedPipeReadEnvelope_drain k rconn first rest data data.length
    fuel hin h4 hfl hN (le_refl _) hfuel
  refine ⟨rc', ?_, hf⟩
  rw [hr, unmarshalResult, hk e data hm]

/-- An instance of the round trip: the envelope `{ID: 1, Type: 2, Data: [7]}`
with the wire codec, written to a pipe that accepts every write in full. -/
theorem namedPipe_round_trip_witness :
    wireCodec.Inverse ∧
    wireCodec.Marshal { ID := 1, Typ := 2, Data := [7] } = Except.ok [8, 1, 16, 2, 26, 1, 7] ∧
    [8, 1, 16, 2, 26, 1, 7].length < 2 ^ 32 ∧
    (∀ i p, p.length ≤ ((pipeOf []).wresp i p).1) ∧
    ∃ wc' recs, namedPipeWriteEnvelope 8 wireCodec (pipeOf [])
        { ID := 1, Typ := 2, Data := [7] } = some (none, wc') ∧
      wc'.wlog = (pipeOf []).wlog ++ recs ∧
      ∀ (rconn : Conn) (first : List Nat) (rest : List (List Nat)) (fuel : Nat),
        rconn.incoming = first :: rest → 4 ≤ first.length →
        (first :: rest).flatten = accepted recs → streamSize rconn.incoming < fuel →
        ∃ rc', namedPipeReadEnvelope fuel wireCodec rconn
            = some ((some { ID := 1, Typ := 2, Data := [7] }, none), rc') ∧
          rc'.incoming.flatten = [] :=
  ⟨wireCodec_inverse, rfl, by decide, fun _ _ => le_refl _,
    namedPipe_round_trip wireCodec wireCodec_inverse { ID := 1, Typ := 2, Data := [7] }
      [8, 1, 16, 2, 26, 1, 7] rfl (by decide) (pipeOf []) (fun _ _ => le_refl _) 8 (by decide)⟩

/-- The round trip as claimed fails when the transport cuts the frame inside
its length bytes: the frame `[2,0,0,0,8,1]` of the envelope `{ID: 1}`,
delivered one byte per read, makes `namedPipeReadEnvelope` take the length
from the first byte alone, read the next two length bytes as the payload and
return an Unmarshal error. -/
theorem namedPipe_round_trip_counterexample :
    wireCodec.Inverse ∧
    wireCodec.Marshal { ID := 1, Typ := 0, Data := [] } = Except.ok [8, 1] ∧
    (namedPipeWriteEnvelope 3 wireCodec (pipeOf []) { ID := 1, Typ := 0, Data := [] }).map
      (fun r => (r.1, accepted r.2.wlog)) = some (none, [2, 0, 0, 0, 8, 1]) ∧
    [[2], [0], [0], [0], [8], [1]].flatten = [2, 0, 0, 0, 8, 1] ∧
    (namedPipeReadEnvelope 7 wireCodec (pipeOf [[2], [0], [0], [0], [8], [1]])).map
      (fun r => (r.1, r.2.incoming))
      = some ((some { ID := 0, Typ := 0, Data := [] }, some (Err.proto 2)), [[0], [8], [1]]) :=
  ⟨wireCodec_inverse, rfl, by decide, by decide, by decide⟩

/-- Claim C2 (wire framing).  For every envelope whose serialized form `data`
has length `N < 2^32`, on a transport that accepts every write in full,
`namedPipeWriteEnvelope` returns `nil` and the bytes it puts on the wire are
exactly the four little-endian bytes of `N` followed by the `N` bytes of
`data`, each once and in order; the first write offers the length bytes and
no later write offers more than 1024 bytes.  (`N` is arbitrary: 0, below
1024, 1024, a multiple of 1024 or anything else.) -/
theorem namedPipeWriteEnvelope_wire_framing {Env : Type} (k : Codec Env) (conn : Conn)
    (envelope : Env) (data : List Nat) (fuel : Nat)
    (hm : k.Marshal envelope = Except.ok data) (hN : data.length < 2 ^ 32)
    (hfull : ∀ i p, p.length ≤ (conn.wresp i p).1) (hfuel : data.length < fuel) :
    ∃ c' recs, namedPipeWriteEnvelope fuel k conn envelope = some (none, c') ∧
      c'.wlog = conn.wlog ++ recs ∧
      accepted recs = putUint32LE data.length ++ data ∧
      (recs.head?.map fun r => r.offered) = some (putUint32LE data.length) ∧
      ∀ r ∈ recs.tail, r.offered.length ≤ 1024 :=
  namedPipeWriteEnvelope_full k conn envelope data fuel hm hN hfull hfuel

/-- An instance of the wire framing: the envelope `{ID: 1, Type: 2, Data: [7]}`. -/
theorem namedPipeWriteEnvelope_wire_framing_witness :
    wireCodec.Marshal { ID := 1, Typ := 2, Data := [7] } = Except.ok [8, 1, 16, 2, 26, 1, 7] ∧
    [8, 1, 16, 2, 26, 1, 7].length < 2 ^ 32 ∧
    (∀ i p, p.length ≤ ((pipeOf []).wresp i p).1) ∧
    ∃ c' recs, namedPipeWriteEnvelope 8 wireCodec (pipeOf [])
        { ID := 1, Typ := 2, Data := [7] } = some (none, c') ∧
      c'.wlog = (pipeOf []).wlog ++ recs ∧
      accepted recs = putUint32LE 7 ++ [8, 1, 16, 2, 26, 1, 7] ∧
      (recs.head?.map fun r => r.offered) = some (putUint32LE 7) ∧
      ∀ r ∈ recs.tail, r.offered.length ≤ 1024 :=
  ⟨rfl, by decide, fun _ _ => le_refl _,
    namedPipeWriteEnvelope_wire_framing wireCodec (pipeOf [])
      { ID := 1, Typ := 2, Data := [7] } [8, 1, 16, 2, 26, 1, 7] 8 rfl (by decide)
      (fun _ _ => le_refl _) (by decide)⟩

/-- Claim C3 (truncated frame, as amended).  Let `p` be a strict prefix of the
frame of an envelope, delivered by a stream that then ends.  When `p` is
empty, `namedPipeReadEnvelope` returns the stream's error and no envelope.
When the first read delivers the four length bytes, it hands the payload
bytes that arrived to Unmarshal and returns what Unmarshal makes of them: an
error exactly when Unmarshal rejects the partial payload, and otherwise the
envelope parsed from it, with no error. -/
theorem namedPipeReadEnvelope_truncated {Env : Type} (k : Codec Env) (e : Env)
    (data : List Nat) (_hm : k.Marshal e = Except.ok data) (hN : data.length < 2 ^ 32)
    (conn : Conn) (p t : List Nat) (_ht : t ≠ []) (hp : p ++ t = frame data)
    (hst : conn.incoming.flatten = p)
    (hshape : conn.incoming = [] ∨
      ∃ first rest, conn.incoming = first :: rest ∧ 4 ≤ first.length)
    (fuel : Nat) (hfuel : streamSize conn.incoming < fuel) :
    ∃ c', namedPipeReadEnvelope fuel k conn =
      some (if conn.incoming = [] then (none, some conn.closeErr)
            else unmarshalResult k (p.drop 4), c') := by
  rcases hshape with hnil | ⟨first, rest, hin, h4⟩
  · refine ⟨conn, ?_⟩
    simp [namedPipeReadEnvelope, Conn.Read_nil conn 4 hnil, hnil]
  · have hne : conn.incoming ≠ [] := by rw [hin]; simp
    rw [if_neg hne]
    have hu : uint32 data.length = data.length := Nat.mod_eq_of_lt hN
    rw [frame, hu] at hp
    have hplen : 4 ≤ p.length := by
      rw [← hst, hin]; simp only [List.flatten_cons, List.length_append]; omega
    have hsplit : p = putUint32LE data.length ++ p.drop 4 := by
      have h1 : p.take 4 = putUint32LE data.length := by
        have := congrArg (List.take 4) hp
        rw [List.take_append_of_le_length hplen, List.take_left' (putUint32LE_length _)] at this
        exact this
      rw [← h1, List.take_append_drop]
    have hlen : (p.drop 4).length ≤ data.length := by
      have := congrArg List.length hp
      simp only [List.length_append, putUint32LE_length, List.length_drop] at this ⊢
      omega
    obtain ⟨c', hr, -, -⟩ := namedPipeReadEnvelope_drain k conn first rest (p.drop 4)
      data.length fuel hin h4 (by rw [← hin, hst]; exact hsplit) hN hlen hfuel
    exact ⟨c', hr⟩

/-- An instance of the truncated frame: the frame of `{ID: 1, Type: 2}` cut
after its length bytes and the first byte of the payload. -/
theorem namedPipeReadEnvelope_truncated_witness :
    wireCodec.Marshal { ID := 1, Typ := 2, Data := [] } = Except.ok [8, 1, 16, 2] ∧
    [4, 0, 0, 0, 8] ++ [1, 16, 2] = frame [8, 1, 16, 2] ∧
    ∃ c', namedPipeReadEnvelope 9 wireCodec (pipeOf [[4, 0, 0, 0], [8]]) =
      some (if (pipeOf [[4, 0, 0, 0], [8]]).incoming = [] then
              (none, some (pipeOf [[4, 0, 0, 0], [8]]).closeErr)
            else unmarshalResult wireCodec ([4, 0, 0, 0, 8].drop 4), c') :=
  ⟨rfl, by decide,
    namedPipeReadEnvelope_truncated wireCodec { ID := 1, Typ := 2, Data := [] } [8, 1, 16, 2]
      rfl (by decide) (pipeOf [[4, 0, 0, 0], [8]]) [4, 0, 0, 0, 8] [1, 16, 2] (by decide)
      (by decide) (by decide) (Or.inr ⟨[4, 0, 0, 0], [[8]], rfl, by decide⟩) 9 (by decide)⟩

/-- A truncated frame can be parsed into an envelope: of the frame
`[4,0,0,0,8,1,16,2]` of `{ID: 1, Type: 2}` the stream delivers
`[4,0,0,0,8,1]` and ends; `namedPipeReadEnvelope` returns the envelope
`{ID: 1}` parsed from the partial payload, and no error. -/
theorem namedPipeReadEnvelope_truncated_counterexample :
    wireCodec.Inverse ∧
    wireCodec.Marshal { ID := 1, Typ := 2, Data := [] } = Except.ok [8, 1, 16, 2] ∧
    frame [8, 1, 16, 2] = [4, 0, 0, 0, 8, 1] ++ [16, 2] ∧
    (namedPipeReadEnvelope 9 wireCodec (pipeOf [[4, 0, 0, 0], [8, 1]])).map
      (fun r => (r.1, r.2.incoming))
      = some ((some { ID := 1, Typ := 0, Data := [] }, none), []) :=
  ⟨wireCodec_inverse, rfl, by decide, by decide⟩

/-- Claim C4 (decode consumes exactly one frame, as amended).  Take a stream
that starts with a complete frame of declared length `N`, `1 ≤ N < 2^32`,
followed by further pieces `cs2`, on which no read runs over the end of
the frame: the frame arrives in non-empty pieces of its own, the first of
them holding the four length bytes.  Then `namedPipeReadEnvelope` consumes
exactly the `4 + N` bytes of the frame, returns what Unmarshal makes of the
`N` payload bytes and leaves `cs2` unread; and when `cs2` is, in the same
way, the frame of an envelope `e2` and the payload is the serialized form
of `e1`, two successive calls return `e1` and then `e2`. -/
theorem namedPipeReadEnvelope_one_frame {Env : Type} (k : Codec Env) (conn : Conn)
    (first : List Nat) (rest cs2 : List (List Nat)) (payload : List Nat) (fuel : Nat)
    (hin : conn.incoming = (first :: rest) ++ cs2) (h4 : 4 ≤ first.length)
    (hne : ∀ ch ∈ rest, ch ≠ [])
    (hfl : (first :: rest).flatten = frame payload) (hN0 : 0 < payload.length)
    (hN : payload.length < 2 ^ 32) (hfuel : streamSize conn.incoming < fuel) :
    ∃ c', namedPipeReadEnvelope fuel k conn = some (unmarshalResult k payload, c') ∧
      c'.incoming = cs2 ∧
      ∀ (e1 e2 : Env) (data2 first2 : List Nat) (rest2 : List (List Nat)),
        k.Inverse → k.Marshal e1 = Except.ok payload → k.Marshal e2 = Except.ok data2 →
        data2.length < 2 ^ 32 → cs2 = first2 :: rest2 → 4 ≤ first2.length →
        cs2.flatten = frame data2 →
        unmarshalResult k payload = (some e1, none) ∧
        ∃ c'', namedPipeReadEnvelope fuel k c' = some ((some e2, none), c'') ∧
          c''.incoming.flatten = [] := by
  have hsz : streamSize conn.incoming = streamSize (first :: rest) + streamSize cs2 := by
    rw [hin, streamSize_append]
  obtain ⟨c', hr, hi, -, -, -⟩ := namedPipeReadEnvelope_exact k conn first rest cs2 payload fuel
    hin h4 hne hfl hN0 hN (by omega)
  refine ⟨c', hr, hi, ?_⟩
  intro e1 e2 data2 first2 rest2 hk hm1 hm2 hN2 hcs2 h42 hfl2
  refine ⟨by rw [unmarshalResult, hk e1 payload hm1], ?_⟩
  have hu : uint32 data2.length = data2.length := Nat.mod_eq_of_lt hN2
  rw [frame, hu, hcs2] at hfl2
  obtain ⟨c'', hr2, hf2, -⟩ := namedPipeReadEnvelope_drain k c' first2 rest2 data2
    data2.length fuel (by rw [hi, hcs2]) h42 hfl2 hN2 (le_refl _) (by rw [hi]; omega)
  refine ⟨c'', ?_, hf2⟩
  rw [hr2, unmarshalResult, hk e2 data2 hm2]

/-- An instance of the one-frame decode: the frames of `{ID: 1}` and
`{Type: 2}` back to back, each arriving as its length bytes and its
payload. -/
theorem namedPipeReadEnvelope_one_frame_witness :
    (pipeOf [[2, 0, 0, 0], [8, 1], [2, 0, 0, 0], [16, 2]]).incoming
      = ([2, 0, 0, 0] :: [[8, 1]]) ++ [[2, 0, 0, 0], [16, 2]] ∧
    4 ≤ [2, 0, 0, 0].length ∧ (∀ ch ∈ [[8, 1]], ch ≠ []) ∧
    ([2, 0, 0, 0] :: [[8, 1]]).flatten = frame [8, 1] ∧
    ∃ c', namedPipeReadEnvelope 17 wireCodec
        (pipeOf [[2, 0, 0, 0], [8, 1], [2, 0, 0, 0], [16, 2]])
        = some (unmarshalResult wireCodec [8, 1], c') ∧
      c'.incoming = [[2, 0, 0, 0], [16, 2]] ∧
      ∀ (e1 e2 : sliverpb.Envelope) (data2 first2 : List Nat) (rest2 : List (List Nat)),
        wireCodec.Inverse → wireCodec.Marshal e1 = Except.ok [8, 1] →
        wireCodec.Marshal e2 = Except.ok data2 →
        data2.length < 2 ^ 32 → [[2, 0, 0, 0], [16, 2]] = first2 :: rest2 → 4 ≤ first2.length →
        [[2, 0, 0, 0], [16, 2]].flatten = frame data2 →
        unmarshalResult wireCodec [8, 1] = (some e1, none) ∧
        ∃ c'', namedPipeReadEnvelope 17 wireCodec c' = some ((some e2, none), c'') ∧
          c''.incoming.flatten = [] :=
  ⟨rfl, by decide, by decide, by decide,
    namedPipeReadEnvelope_one_frame wireCodec
      (pipeOf [[2, 0, 0, 0], [8, 1], [2, 0, 0, 0], [16, 2]]) [2, 0, 0, 0] [[8, 1]]
      [[2, 0, 0, 0], [16, 2]] [8, 1] 17 rfl (by decide) (by decide) (by decide) (by decide)
      (by decide) (by decide)⟩

/-- Decode can run over the end of a frame: the frames of `{ID: 1}` and of
`{Type: 2}` arrive back to back as one piece of twelve bytes.  The first
call of `namedPipeReadEnvelope` takes the length 2 from the first frame,
then reads all eight bytes that follow in one read, goes on to the end of
the stream, and returns an Unmarshal error with nothing left unread; the
second call finds the stream at its end. -/
theorem namedPipeReadEnvelope_one_frame_counterexample :
    wireCodec.Marshal { ID := 1, Typ := 0, Data := [] } = Except.ok [8, 1] ∧
    wireCodec.Marshal { ID := 0, Typ := 2, Data := [] } = Except.ok [16, 2] ∧
    frame [8, 1] ++ frame [16, 2] = [2, 0, 0, 0, 8, 1, 2, 0, 0, 0, 16, 2] ∧
    (namedPipeReadEnvelope 13 wireCodec (pipeOf [[2, 0, 0, 0, 8, 1, 2, 0, 0, 0, 16, 2]])).map
      (fun r => (r.1, r.2.incoming))
      = some ((some { ID := 0, Typ := 0, Data := [] }, some (Err.proto 2)), []) ∧
    ((namedPipeReadEnvelope 13 wireCodec (pipeOf [[2, 0, 0, 0, 8, 1, 2, 0, 0, 0, 16, 2]])).bind
      (fun r => namedPipeReadEnvelope 13 wireCodec r.2)).map (fun r => (r.1, r.2.incoming))
      = some ((none, some Err.eof), []) :=
  ⟨rfl, rfl, by decide, by decide, by decide⟩

/-- On a transport that takes nothing of any write, the chunk loop never
comes to an end while more than 1024 bytes are left. -/
theorem writeLoop_stuck (fuel : Nat) : ∀ (c : Conn) (data : List Nat) (tw : Nat),
    (∀ i p, (c.wresp i p).1 = 0) → tw + 1024 < data.length →
    writeLoop fuel c data tw = none := by
  induction fuel with
  | zero => intro c data tw _ _; rfl
  | succ fuel ih =>
    intro c data tw h0 hlt
    have hcond : (tw : Int) < (data.length : Int) - (writeBufSizeNamedPipe : Int) := by
      simp only [writeBufSizeNamedPipe]; omega
    have hn : (c.Write ((data.drop tw).take writeBufSizeNamedPipe)).1.1 = 0 := by
      simp [Conn.Write, h0]
    rw [writeLoop, if_pos hcond]
    simp only [hn, Nat.add_zero]
    exact ih _ _ _ (fun i p => h0 i p) hlt

/-- Claim C5 (write failure, as amended).  A write failure is not surfaced and
does not stop `namedPipeWriteEnvelope`: for every envelope that marshals and
every transport, failing writes included, on which each write of a 1024-byte
chunk (the writes after the first) takes at least one byte, the call terminates and returns `nil`; its
first write offers the length bytes, whatever error the transport reports
for it is dropped, and when the payload is not empty at least one more write
is attempted after it. -/
theorem namedPipeWriteEnvelope_write_errors_dropped {Env : Type} (k : Codec Env)
    (conn : Conn) (envelope : Env) (data : List Nat) (fuel : Nat)
    (hm : k.Marshal envelope = Except.ok data)
    (hprog : ∀ i p, conn.wlog.length < i → p.length = 1024 → 1 ≤ (conn.wresp i p).1)
    (hfuel : data.length < fuel) :
    ∃ c' recs, namedPipeWriteEnvelope fuel k conn envelope = some (none, c') ∧
      c'.wlog = conn.wlog ++ recs ∧
      (recs.head?.map fun r => (r.offered, r.err)) =
        some (putUint32LE (uint32 data.length),
          (conn.wresp conn.wlog.length (putUint32LE (uint32 data.length))).2) ∧
      (data ≠ [] → 2 ≤ recs.length) := by
  obtain ⟨c', tw, loopRecs, tailRecs, hrun, -, -, -, hlog, -, -, -, -, h9, -, ht1⟩ :=
    namedPipeWriteEnvelope_spec k conn envelope data fuel hm hprog hfuel
  refine ⟨c', _, hrun, hlog, rfl, ?_⟩
  intro hne
  have hpos : 0 < data.length := List.length_pos.2 hne
  rw [ht1 (h9 hpos)]
  simp

/-- An instance of the dropped write error: the length write fails, and the
call goes on to write the payload and returns `nil`. -/
theorem namedPipeWriteEnvelope_write_errors_dropped_witness :
    wireCodec.Marshal { ID := 1, Typ := 0, Data := [] } = Except.ok [8, 1] ∧
    (∀ i p, firstWriteFails.wlog.length < i → p.length = 1024 →
      1 ≤ (firstWriteFails.wresp i p).1) ∧
    (firstWriteFails.wresp firstWriteFails.wlog.length (putUint32LE (uint32 2))).2
      = some (Err.transport 1) ∧
    ∃ c' recs, namedPipeWriteEnvelope 3 wireCodec firstWriteFails
        { ID := 1, Typ := 0, Data := [] } = some (none, c') ∧
      c'.wlog = firstWriteFails.wlog ++ recs ∧
      (recs.head?.map fun r => (r.offered, r.err)) =
        some (putUint32LE (uint32 [8, 1].length),
          (firstWriteFails.wresp firstWriteFails.wlog.length
            (putUint32LE (uint32 [8, 1].length))).2) ∧
      (([8, 1] : List Nat) ≠ [] → 2 ≤ recs.length) :=
  ⟨rfl,
    by
      intro i p hi hp
      have h0 : i ≠ 0 := by simp only [firstWriteFails, List.length_nil] at hi; omega
      simp [firstWriteFails, h0, hp],
    rfl,
    namedPipeWriteEnvelope_write_errors_dropped wireCodec firstWriteFails
      { ID := 1, Typ := 0, Data := [] } [8, 1] 3 rfl
      (by
        intro i p hi hp
        have h0 : i ≠ 0 := by simp only [firstWriteFails, List.length_nil] at hi; omega
        simp [firstWriteFails, h0, hp])
      (by decide)⟩

/-- A failed write is neither surfaced nor the last one: on a pipe whose
first write fails, `namedPipeWriteEnvelope` for `{ID: 1}` still writes the
payload and returns `nil`; and on a pipe on which every write fails, taking
nothing, the call for a payload of 1025 bytes never returns, whatever the
number of rounds it is given. -/
theorem namedPipeWriteEnvelope_write_errors_counterexample :
    wireCodec.Marshal { ID := 1, Typ := 0, Data := [] } = Except.ok [8, 1] ∧
    (namedPipeWriteEnvelope 3 wireCodec firstWriteFails { ID := 1, Typ := 0, Data := [] }).map
      (fun r => (r.1, r.2.wlog))
      = some (none, [{ offered := [2, 0, 0, 0], n := 0, err := some (Err.transport 1) },
                     { offered := [8, 1], n := 2, err := none }]) ∧
    ∀ fuel, namedPipeWriteEnvelope fuel rawCodec brokenPipe (List.replicate 1025 0)
      = none := by
  refine ⟨rfl, by decide, ?_⟩
  intro fuel
  have h := writeLoop_stuck fuel
    (brokenPipe.Write (putUint32LE (uint32 (List.replicate 1025 0).length))).2
    (List.replicate 1025 0) 0 (fun _ _ => rfl) (by simp only [List.length_replicate]; omega)
  simp only [namedPipeWriteEnvelope, rawCodec, h]

/-- Claim C6 (short writes, as amended).  Short writes are made up for in the
chunk loop only.  For every envelope whose serialized form is shorter than
2^32 bytes and every transport on which each write of a 1024-byte chunk
takes at least one byte, `namedPipeWriteEnvelope` returns `nil`, and when
the transport took the first write of the call (the length bytes) and the
last write of the call (the rest of the payload) in full, the bytes it
accepted are exactly the four length bytes followed by the whole payload, in
order, none lost or repeated. -/
theorem namedPipeWriteEnvelope_short_writes {Env : Type} (k : Codec Env) (conn : Conn)
    (envelope : Env) (data : List Nat) (fuel : Nat)
    (hm : k.Marshal envelope = Except.ok data) (hN : data.length < 2 ^ 32)
    (hprog : ∀ i p, conn.wlog.length < i → p.length = 1024 → 1 ≤ (conn.wresp i p).1)
    (hfuel : data.length < fuel)
    (hfirst : ∀ r, (writesOf fuel k conn envelope).head? = some r → r.n = r.offered.length)
    (hlast : ∀ r, (writesOf fuel k conn envelope).getLast? = some r →
      r.n = r.offered.length) :
    (∃ c', namedPipeWriteEnvelope fuel k conn envelope = some (none, c')) ∧
    accepted (writesOf fuel k conn envelope) = putUint32LE data.length ++ data := by
  obtain ⟨c', tw, loopRecs, tailRecs, hrun, -, -, -, hlog, hacc, -, h7, -, h9, ht0, ht1⟩ :=
    namedPipeWriteEnvelope_spec k conn envelope data fuel hm hprog hfuel
  have hu : uint32 data.length = data.length := Nat.mod_eq_of_lt hN
  rw [hu] at hlog
  have hwr : writesOf fuel k conn envelope =
      WriteRec.mk (putUint32LE data.length)
        (min (conn.wresp conn.wlog.length (putUint32LE data.length)).1 4)
        (conn.wresp conn.wlog.length (putUint32LE data.length)).2 :: (loopRecs ++ tailRecs) := by
    simp only [writesOf, hrun, hlog, List.drop_left]
  rw [hwr] at hfirst hlast ⊢
  refine ⟨⟨c', hrun⟩, ?_⟩
  have h4 := hfirst _ rfl
  simp only [putUint32LE_length] at h4
  have hcons : ∀ (r : WriteRec) (l : List WriteRec),
      accepted (r :: l) = r.offered.take r.n ++ accepted l := by
    intro r l; simp [accepted]
  rw [hcons, accepted_append, hacc]
  simp only [h4]
  have htail : accepted tailRecs = data.drop tw := by
    by_cases htl : tw < data.length
    · have hl := hlast (WriteRec.mk (data.drop tw)
          (min (conn.wresp (conn.wlog.length + 1 + loopRecs.length) (data.drop tw)).1
            (data.length - tw))
          (conn.wresp (conn.wlog.length + 1 + loopRecs.length) (data.drop tw)).2)
        (by rw [ht1 htl, ← List.cons_append, List.getLast?_append]; rfl)
      have hl' : min (conn.wresp (conn.wlog.length + 1 + loopRecs.length) (data.drop tw)).1
          (data.length - tw) = (data.drop tw).length := hl
      rw [ht1 htl, accepted_single, hl']
      exact List.take_length _
    · rw [ht0 htl]
      have : data.length ≤ tw := by omega
      simp [accepted, List.drop_eq_nil_of_le this]
  rw [htail, List.take_append_drop]
  simp [putUint32LE]

set_option maxRecDepth 100000 in
/-- An instance of the short writes: a payload of 1500 bytes on a pipe that
takes only 1000 bytes of the 1024-byte chunk write; the writes offer 4, 1024
and 500 bytes, of which 4, 1000 and 500 are taken. -/
theorem namedPipeWriteEnvelope_short_writes_witness :
    rawCodec.Marshal (List.replicate 1500 7) = Except.ok (List.replicate 1500 7) ∧
    (List.replicate 1500 7).length < 2 ^ 32 ∧
    (∀ i p, slowPipe.wlog.length < i → p.length = 1024 → 1 ≤ (slowPipe.wresp i p).1) ∧
    (writesOf 1501 rawCodec slowPipe (List.replicate 1500 7)).map
      (fun w => (w.offered.length, w.n)) = [(4, 4), (1024, 1000), (500, 500)] ∧
    (∃ c', namedPipeWriteEnvelope 1501 rawCodec slowPipe (List.replicate 1500 7)
        = some (none, c')) ∧
    accepted (writesOf 1501 rawCodec slowPipe (List.replicate 1500 7))
      = putUint32LE (List.replicate 1500 7).length ++ List.replicate 1500 7 :=
  ⟨rfl, by simp only [List.length_replicate]; omega,
    fun i p _ hp => by simp only [slowPipe, hp, if_true]; omega,
    by decide,
    namedPipeWriteEnvelope_short_writes rawCodec slowPipe (List.replicate 1500 7)
      (List.replicate 1500 7) 1501 rfl (by simp only [List.length_replicate]; omega)
      (fun i p _ hp => by simp only [slowPipe, hp, if_true]; omega)
      (by simp only [List.length_replicate]; omega) (by decide) (by decide)⟩

/-- Short writes of the length bytes and of the last chunk lose bytes: on a
pipe that takes one byte of every write and never fails,
`namedPipeWriteEnvelope` for `{ID: 1}`, whose frame is `[2,0,0,0,8,1]`,
returns `nil` with only `[2,8]` accepted. -/
theorem namedPipeWriteEnvelope_short_writes_counterexample :
    wireCodec.Marshal { ID := 1, Typ := 0, Data := [] } = Except.ok [8, 1] ∧
    frame [8, 1] = [2, 0, 0, 0, 8, 1] ∧
    (∀ i p, (oneBytePipe.wresp i p) = (1, none)) ∧
    (namedPipeWriteEnvelope 3 wireCodec oneBytePipe { ID := 1, Typ := 0, Data := [] }).map
      (fun r => (r.1, accepted r.2.wlog)) = some (none, [2, 8]) :=
  ⟨rfl, by decide, fun _ _ => rfl, by decide⟩

/-! ## The receive loop -/

/-- The receive loop in closed form: it reads up to and including the first
`io.EOF` result, and publishes the envelopes of the results before it that
carry no error. -/
theorem recvLoop_spec {Env : Type} (results : List (Option Env × Option Err)) :
    ∀ st : RecvState Env,
      (recvLoop results st).published = st.published ++
        ((results.takeWhile fun r => r.2 ≠ some Err.eof).filter fun r => r.2 = none).map
          (fun r => r.1) ∧
      (recvLoop results st).stopped = (st.stopped || results.any fun r => r.2 = some Err.eof) ∧
      (recvLoop results st).reads = st.reads +
        (results.takeWhile fun r => r.2 ≠ some Err.eof).length +
        (if results.any fun r => r.2 = some Err.eof then 1 else 0) := by
  induction results with
  | nil => intro st; simp [recvLoop]
  | cons r rest ih =>
    intro st
    obtain ⟨envelope, err⟩ := r
    rw [recvLoop]
    by_cases h1 : err = some Err.eof
    · simp [h1, List.takeWhile_cons]
    · rw [if_neg h1]
      have hp : decide ((envelope, err).2 ≠ some Err.eof) = true := by simpa using h1
      have hq : decide ((envelope, err).2 = some Err.eof) = false := by simpa using h1
      by_cases h2 : err = none
      · rw [if_pos h2]
        have hf : decide ((envelope, err).2 = none) = true := by simpa using h2
        obtain ⟨ha, hb, hc⟩ :=
          ih { st with published := st.published ++ [envelope], reads := st.reads + 1 }
        rw [ha, hb, hc]
        simp only [List.takeWhile_cons, hp, if_true, List.filter_cons, hf, List.map_cons,
          List.any_cons, hq, Bool.false_or, List.length_cons, List.append_assoc,
          List.singleton_append]
        exact ⟨trivial, trivial, by omega⟩
      · rw [if_neg h2]
        have hf : decide ((envelope, err).2 = none) = false := by simpa using h2
        obtain ⟨ha, hb, hc⟩ := ih { st with reads := st.reads + 1 }
        rw [ha, hb, hc]
        simp only [List.takeWhile_cons, hp, if_true, List.filter_cons, hf, List.map_cons,
          List.any_cons, hq, Bool.false_or, List.length_cons]
        exact ⟨by simp, trivial, by omega⟩

/-- Claim C7 (inbound loop, as amended).  The receive loop of
`namedPipeConnect` stops on `io.EOF` only.  For every sequence of results of
`namedPipeReadEnvelope`, the loop reads up to and including the first result
whose error is `io.EOF` and there leaves its `for`, which triggers cleanup;
it publishes exactly the envelopes of the results before that one that carry
no error; a result with any other error is skipped and followed by another
read, and with no `io.EOF` among the results the loop reads them all and
does not stop. -/
theorem namedPipeConnect_recv_stops_on_eof {Env : Type}
    (results : List (Option Env × Option Err)) :
    (namedPipeConnect_recv results).published =
      ((results.takeWhile fun r => r.2 ≠ some Err.eof).filter fun r => r.2 = none).map
        (fun r => r.1) ∧
    (namedPipeConnect_recv results).stopped = (results.any fun r => r.2 = some Err.eof) ∧
    (namedPipeConnect_recv results).reads =
      (results.takeWhile fun r => r.2 ≠ some Err.eof).length +
      (if results.any fun r => r.2 = some Err.eof then 1 else 0) := by
  obtain ⟨ha, hb, hc⟩ := recvLoop_spec results { published := [], reads := 0, stopped := false }
  refine ⟨by simpa [namedPipeConnect_recv] using ha, by simpa [namedPipeConnect_recv] using hb, ?_⟩
  simpa [namedPipeConnect_recv] using hc

/-- A failed read is absorbed and followed by another read: after a result
with an Unmarshal error the loop reads on, publishes the envelope of the
next result and stops only at `io.EOF`, three reads in all; and after
results with transport errors other than `io.EOF` it has not stopped. -/
theorem namedPipeConnect_recv_counterexample :
    (namedPipeConnect_recv
        [(some wireCodec.empty, some (Err.proto 2)),
         (some { ID := 1, Typ := 0, Data := [] }, none),
         (none, some Err.eof)]).published = [some { ID := 1, Typ := 0, Data := [] }] ∧
    (namedPipeConnect_recv
        [(some wireCodec.empty, some (Err.proto 2)),
         (some { ID := 1, Typ := 0, Data := [] }, none),
         (none, some Err.eof)]).reads = 3 ∧
    (namedPipeConnect_recv
        [((none : Option sliverpb.Envelope), some (Err.transport 1)),
         (none, some (Err.transport 1))]).stopped = false ∧
    (namedPipeConnect_recv
        [((none : Option sliverpb.Envelope), some (Err.transport 1)),
         (none, some (Err.transport 1))]).reads = 2 :=
  ⟨by decide, by decide, by decide, by decide⟩

/-! ## The console claims -/

theorem mapDelete_mapSet_fresh (m : List (String × Nat)) (k : String) (v : Nat)
    (hfresh : ∀ kv ∈ m, kv.1 ≠ k) : mapDelete (mapSet m k v) k = m := by
  have hany : (m.any fun kv => decide (kv.1 = k)) = false := by
    rw [List.any_eq_false]
    intro kv hkv
    simpa using hfresh kv hkv
  have hfil : m.filter (fun kv => decide (kv.1 ≠ k)) = m := by
    rw [List.filter_eq_self]
    intro kv hkv
    simpa using hfresh kv hkv
  simp only [mapSet, hany, Bool.false_eq_true, if_false, mapDelete, List.filter_append, hfil]
  simp

theorem mem_mapSet (m : List (String × Nat)) (k : String) (v : Nat)
    (hfresh : ∀ kv ∈ m, kv.1 ≠ k) : (k, v) ∈ mapSet m k v := by
  have hany : (m.any fun kv => decide (kv.1 = k)) = false := by
    rw [List.any_eq_false]
    intro kv hkv
    simpa using hfresh kv hkv
  simp [mapSet, hany]

/-- Claim C8 (no active session).  When `activeSliver` is `nil`,
`activeSliverRequest` returns the error "No active sliver" for every message
type, request id and payload, and `psCmd` writes its request to select a
session (or nothing, when the flags asked for help) and returns; in both
cases the globals are as before: no envelope is put on any send queue and
no pending-request table is changed. -/
theorem no_active_sliver (st : Console) (h : st.activeSliver = none) :
    (∀ msgType reqId data resp reply,
      activeSliverRequest st msgType reqId data resp reply
        = ((pb.Envelope.zero, some "No active sliver"), st)) ∧
    (∀ args env, (psCmd st args env).1 = st ∧
      (psCmd st args env).2 =
        if env.parseErr = some FlagErr.ErrHelp then [] else [Out.selectActive]) := by
  constructor
  · intro msgType reqId data resp reply
    simp [activeSliverRequest, h]
  · intro args env
    by_cases hp : env.parseErr = some FlagErr.ErrHelp <;> simp [psCmd, hp, h]

/-- An instance with one session in the registry and none selected. -/
theorem no_active_sliver_witness :
    (Console.mk upperHive none).activeSliver = none ∧
    (∀ msgType reqId data resp reply,
      activeSliverRequest (Console.mk upperHive none) msgType reqId data
        resp reply
        = ((pb.Envelope.zero, some "No active sliver"),
            Console.mk upperHive none)) ∧
    (∀ args env, (psCmd (Console.mk upperHive none) args env).1
        = Console.mk upperHive none ∧
      (psCmd (Console.mk upperHive none) args env).2 =
        if env.parseErr = some FlagErr.ErrHelp then [] else [Out.selectActive]) :=
  ⟨rfl, no_active_sliver (Console.mk upperHive none) rfl⟩

/-- Claim C9 (no leaked pending entries).  For every active session, every
pending-request table and every request id that is not in the table, when
`activeSliverRequest` returns, with the reply that was routed into its slot
or with the error "timeout", the session's pending-request table is the
table before the call (so of the same size, without the request id, every
other entry as it was), although the call had entered the request id into
it; the request envelope is on the session's send queue and the registry is
as before. -/
theorem activeSliverRequest_no_leak (st : Console) (s : Sliver)
    (h : st.activeSliver = some s) (msgType reqId : String) (data : List Nat) (resp : Nat)
    (reply : Option pb.Envelope) (hfresh : ∀ kv ∈ s.Resp, kv.1 ≠ reqId) :
    (reqId, resp) ∈ mapSet s.Resp reqId resp ∧
    (activeSliverRequest st msgType reqId data resp reply).1 =
      (match reply with
       | some e => (e, none)
       | none => (pb.Envelope.zero, some "timeout")) ∧
    ∃ s', (activeSliverRequest st msgType reqId data resp reply).2.activeSliver = some s' ∧
      s'.Resp = s.Resp ∧ s'.Resp.length = s.Resp.length ∧
      (∀ kv ∈ s'.Resp, kv.1 ≠ reqId) ∧
      s'.Send = s.Send ++ [pb.Envelope.mk reqId msgType data] ∧
      (activeSliverRequest st msgType reqId data resp reply).2.hive = st.hive := by
  refine ⟨mem_mapSet _ _ _ hfresh, ?_, ?_⟩
  · cases reply <;> simp [activeSliverRequest, h]
  · have hd := mapDelete_mapSet_fresh s.Resp reqId resp hfresh
    refine ⟨{ s with Send := s.Send ++ [pb.Envelope.mk reqId msgType data],
                     Resp := mapDelete (mapSet s.Resp reqId resp) reqId }, ?_, hd, ?_, ?_, rfl, ?_⟩
    · cases reply <;> simp only [activeSliverRequest, h]
    · exact congrArg List.length hd
    · intro kv hkv
      exact hfresh kv (by simpa only [hd] using hkv)
    · cases reply <;> simp only [activeSliverRequest, h]

/-- An instance: a session with one request pending, a second request that
times out. -/
theorem activeSliverRequest_no_leak_witness :
    (Console.mk [] (some { sampleSliver 1 "FOO" with Resp := [("a", 0)] })).activeSliver
      = some { sampleSliver 1 "FOO" with Resp := [("a", 0)] } ∧
    (∀ kv ∈ ({ sampleSliver 1 "FOO" with Resp := [("a", 0)] } : Sliver).Resp, kv.1 ≠ "b") ∧
    (activeSliverRequest (Console.mk [] (some { sampleSliver 1 "FOO" with Resp := [("a", 0)] }))
        "ping" "b" [1] 1 none).1 = (pb.Envelope.zero, some "timeout") ∧
    ∃ s', (activeSliverRequest
        (Console.mk [] (some { sampleSliver 1 "FOO" with Resp := [("a", 0)] }))
        "ping" "b" [1] 1 none).2.activeSliver = some s' ∧
      s'.Resp = [("a", 0)] :=
  have hw := activeSliverRequest_no_leak
    (Console.mk [] (some { sampleSliver 1 "FOO" with Resp := [("a", 0)] }))
    { sampleSliver 1 "FOO" with Resp := [("a", 0)] } rfl "ping" "b" [1] 1 none (by decide)
  ⟨rfl, by decide, hw.2.1, hw.2.2.imp fun _ hs => ⟨hs.1, hs.2.1⟩⟩

/-- Claim C10 (lookup by name, as amended).  Lookup by name compares the
stored name with the upper-cased query.  For every registry and every
non-numeric query `q`, `getSliver(q)` returns a session of the registry
whose stored name equals `strings.ToUpper(q)` when the registry holds such a
session, and `nil` when it holds none; so the result does not depend on the
case in which `q` is typed. -/
theorem getSliver_by_name (hive : List (Int × Sliver)) (q : String) (hq : Atoi q = none) :
    ((∃ kv ∈ hive, kv.2.Name = ToUpper q) →
      ∃ s, getSliver hive q = some s ∧ s.Name = ToUpper q ∧ ∃ kv ∈ hive, kv.2 = s) ∧
    ((∀ kv ∈ hive, kv.2.Name ≠ ToUpper q) → getSliver hive q = none) ∧
    (∀ q', Atoi q' = none → ToUpper q' = ToUpper q → getSliver hive q' = getSliver hive q) := by
  have hget : ∀ q0, Atoi q0 = none →
      getSliver hive q0 = (hive.find? (fun kv => kv.2.Name = ToUpper q0)).map (fun kv => kv.2) := by
    intro q0 h0
    simp [getSliver, h0]
  refine ⟨?_, ?_, ?_⟩
  · rintro ⟨kv, hkv, hname⟩
    cases hf : hive.find? (fun kv => decide (kv.2.Name = ToUpper q)) with
    | none =>
      rw [List.find?_eq_none] at hf
      exact absurd (by simpa using hname) (hf kv hkv)
    | some kv' =>
      refine ⟨kv'.2, by rw [hget q hq, hf]; rfl, ?_, kv', List.mem_of_find?_eq_some hf, rfl⟩
      simpa using List.find?_some hf
  · intro hnone
    rw [hget q hq]
    have : hive.find? (fun kv => decide (kv.2.Name = ToUpper q)) = none := by
      rw [List.find?_eq_none]
      intro kv hkv
      simpa using hnone kv hkv
    rw [this]; rfl
  · intro q' hq' hup
    rw [hget q hq, hget q' hq', hup]

/-- An instance: the session stored as "FOO" is found by the query "foo". -/
theorem getSliver_by_name_witness :
    Atoi "foo" = none ∧
    getSliver upperHive "foo" = some (sampleSliver 1 "FOO") ∧
    (((∃ kv ∈ upperHive, kv.2.Name = ToUpper "foo") →
      ∃ s, getSliver upperHive "foo" = some s ∧ s.Name = ToUpper "foo" ∧
        ∃ kv ∈ upperHive, kv.2 = s) ∧
    ((∀ kv ∈ upperHive, kv.2.Name ≠ ToUpper "foo") →
      getSliver upperHive "foo" = none) ∧
    (∀ q', Atoi q' = none → ToUpper q' = ToUpper "foo" →
      getSliver upperHive q' = getSliver upperHive "foo")) :=
  ⟨by decide, by decide, getSliver_by_name upperHive "foo" (by decide)⟩

/-- The lookup depends on the case in which the name is stored: a session
stored under the name "foo" is not found by the query "foo", nor by "FOO",
though the names are equal ignoring case. -/
theorem getSliver_by_name_counterexample :
    Atoi "foo" = none ∧ Atoi "FOO" = none ∧
    (sampleSliver 1 "foo").Name = "foo" ∧ ToUpper "foo" = ToUpper (sampleSliver 1 "foo").Name ∧
    getSliver lowerHive "foo" = none ∧
    getSliver lowerHive "FOO" = none :=
  ⟨by decide, by decide, rfl, by decide, by decide, by decide⟩


/-! ## The session table -/

theorem lookup_of_mem_nodup (hive : List (Int × Sliver)) (hnd : (hive.map Prod.fst).Nodup)
    (k : Int) (s : Sliver) (hmem : (k, s) ∈ hive) : hive.lookup k = some s := by
  induction hive with
  | nil => simp at hmem
  | cons kv rest ih =>
    obtain ⟨k0, s0⟩ := kv
    simp only [List.map_cons, List.nodup_cons] at hnd
    rcases List.mem_cons.1 hmem with h | h
    · simp only [Prod.mk.injEq] at h
      obtain ⟨rfl, rfl⟩ := h
      simp [List.lookup]
    · have hne : k ≠ k0 := by
        intro hk
        apply hnd.1
        rw [← hk]
        exact List.mem_map.2 ⟨(k, s), h, rfl⟩
      have hb : (k == k0) = false := by simpa using hne
      simp only [List.lookup, hb]
      exact ih hnd.2 h

theorem mem_of_lookup (hive : List (Int × Sliver)) (k : Int) (s : Sliver)
    (h : hive.lookup k = some s) : (k, s) ∈ hive := by
  induction hive with
  | nil => simp [List.lookup] at h
  | cons kv rest ih =>
    obtain ⟨k0, s0⟩ := kv
    by_cases hk : k = k0
    · subst hk
      simp [List.lookup] at h
      subst h
      exact List.mem_cons_self _ _
    · have hb : (k == k0) = false := by simpa using hk
      simp only [List.lookup, hb] at h
      exact List.mem_cons_of_mem _ (ih h)

/-- The row loop depends on the registry through its lookups only, and
writes one row for every key, in the order of the keys. -/
theorem printRows_spec (st : Console) : ∀ (keys : List Int) (index : Nat) (ai : Int),
    (∀ k ∈ keys, ∃ s, st.hive.lookup k = some s) →
    ∃ ai', printRows st keys index ai =
      some ((keys.filterMap fun k => st.hive.lookup k).map rowOf, ai') := by
  intro keys
  induction keys with
  | nil => intro index ai _; exact ⟨ai, rfl⟩
  | cons k rest ih =>
    intro index ai hall
    obtain ⟨s, hs⟩ := hall k (List.mem_cons_self _ _)
    have hrest : ∀ k' ∈ rest, ∃ s, st.hive.lookup k' = some s :=
      fun k' hk' => hall k' (List.mem_cons_of_mem _ hk')
    simp only [printRows, hs]
    obtain ⟨ai', h'⟩ := ih (index + 1) _ hrest
    rw [h']
    exact ⟨ai', by simp [List.filterMap_cons, hs]⟩

theorem printRows_congr (st st' : Console) (hact : st'.activeSliver = st.activeSliver)
    (hl : ∀ k, st'.hive.lookup k = st.hive.lookup k) :
    ∀ (keys : List Int) (index : Nat) (ai : Int),
      printRows st' keys index ai = printRows st keys index ai := by
  intro keys
  induction keys with
  | nil => intro index ai; rfl
  | cons k rest ih =>
    intro index ai
    simp only [printRows, hl, hact, ih]

theorem filterMap_lookup_keys (hive : List (Int × Sliver)) (hnd : (hive.map Prod.fst).Nodup) :
    (hive.map Prod.fst).filterMap (fun k => hive.lookup k) = hive.map Prod.snd := by
  have key : ∀ (l : List (Int × Sliver)), (∀ kv ∈ l, kv ∈ hive) →
      (l.map Prod.fst).filterMap (fun k => hive.lookup k) = l.map Prod.snd := by
    intro l
    induction l with
    | nil => intro _; rfl
    | cons kv rest ih =>
      intro hsub
      have h1 : hive.lookup kv.1 = some kv.2 :=
        lookup_of_mem_nodup hive hnd kv.1 kv.2 (hsub kv (List.mem_cons_self _ _))
      simp only [List.map_cons, List.filterMap_cons, h1]
      rw [ih (fun kv' h => hsub kv' (List.mem_cons_of_mem _ h))]
  exact key hive (fun _ h => h)

theorem lookup_perm (hive hive' : List (Int × Sliver)) (hnd : (hive.map Prod.fst).Nodup)
    (hp : hive'.Perm hive) (k : Int) : hive'.lookup k = hive.lookup k := by
  have hnd' : (hive'.map Prod.fst).Nodup := (hp.map Prod.fst).nodup_iff.2 hnd
  cases h : hive.lookup k with
  | some s =>
    exact lookup_of_mem_nodup hive' hnd' k s (hp.mem_iff.2 (mem_of_lookup hive k s h))
  | none =>
    cases h' : hive'.lookup k with
    | none => rfl
    | some s' =>
      have := lookup_of_mem_nodup hive hnd k s' (hp.mem_iff.1 (mem_of_lookup hive' k s' h'))
      rw [h] at this
      exact absurd this (by simp)

theorem sortInts_perm (keys keys' : List Int) (hp : keys'.Perm keys) :
    sortInts keys' = sortInts keys := by
  apply List.eq_of_perm_of_sorted (r := fun a b : Int => a ≤ b)
  · exact ((List.perm_insertionSort _ keys').trans hp).trans (List.perm_insertionSort _ keys).symm
  · exact List.sorted_insertionSort _ keys'
  · exact List.sorted_insertionSort _ keys

/-- Claim C11 (the session listing is sorted by id).  For every registry in
which each session is stored under its own id (the keys of the map being
distinct), `printSlivers` writes the row of every session of the registry,
each once, in strictly increasing order of the ids, whatever the order in
which the map is iterated: every reordering of the registry gives the same
rows. -/
theorem printSlivers_sorted (st : Console) (hnd : (st.hive.map Prod.fst).Nodup)
    (hid : ∀ kv ∈ st.hive, kv.2.Id = kv.1) :
    ∃ (slivers : List Sliver) (activeIndex : Int), printSlivers st = some (slivers.map rowOf, activeIndex) ∧
      slivers.Perm (st.hive.map Prod.snd) ∧
      slivers.Pairwise (fun a b => a.Id < b.Id) ∧
      ∀ hive', hive'.Perm st.hive → printSlivers { st with hive := hive' } = printSlivers st := by
  have hkeys : st.hive.map (fun kv => kv.2.Id) = st.hive.map Prod.fst :=
    List.map_congr_left hid
  have hperm : (sortInts (st.hive.map Prod.fst)).Perm (st.hive.map Prod.fst) :=
    List.perm_insertionSort _ _
  have hsorted : (sortInts (st.hive.map Prod.fst)).Sorted (fun a b => a ≤ b) :=
    List.sorted_insertionSort _ _
  have hstrict : (sortInts (st.hive.map Prod.fst)).Pairwise (fun a b => a < b) :=
    hsorted.lt_of_le (hperm.nodup_iff.2 hnd)
  have hfound : ∀ k ∈ sortInts (st.hive.map Prod.fst), ∃ s, st.hive.lookup k = some s := by
    intro k hk
    obtain ⟨kv, hkv, rfl⟩ := List.mem_map.1 (hperm.mem_iff.1 hk)
    exact ⟨kv.2, lookup_of_mem_nodup st.hive hnd kv.1 kv.2 hkv⟩
  obtain ⟨ai, hrows⟩ := printRows_spec st (sortInts (st.hive.map Prod.fst)) 0 (-1) hfound
  refine ⟨(sortInts (st.hive.map Prod.fst)).filterMap (fun k => st.hive.lookup k), ai,
    by simp only [printSlivers, hkeys, hrows], ?_, ?_, ?_⟩
  · rw [← filterMap_lookup_keys st.hive hnd]
    exact hperm.filterMap _
  · refine List.Pairwise.filterMap _ ?_ hstrict
    intro k k' hlt s hs s' hs'
    have h1 := hid _ (mem_of_lookup st.hive k s (by simpa using hs))
    have h2 := hid _ (mem_of_lookup st.hive k' s' (by simpa using hs'))
    simp only at h1 h2
    rw [h1, h2]; exact hlt
  · intro hive' hp
    have hk' : (hive'.map fun kv => kv.2.Id).Perm (st.hive.map fun kv => kv.2.Id) := hp.map _
    simp only [printSlivers, sortInts_perm _ _ hk']
    exact printRows_congr st { st with hive := hive' } rfl
      (fun k => lookup_perm st.hive hive' hnd hp k) _ _ _

/-- An instance: a registry of three sessions stored in the order 3, 1, 2 is
listed in the order 1, 2, 3, the second line of the rows being the selected
session. -/
theorem printSlivers_sorted_witness :
    (threeHive.map Prod.fst).Nodup ∧ (∀ kv ∈ threeHive, kv.2.Id = kv.1) ∧
    (printSlivers (Console.mk threeHive (some (sampleSliver 2 "B")))).map
      (fun r => (r.1.map (fun row => (row.Id, row.Name)), r.2))
      = some ([(1, "A"), (2, "B"), (3, "C")], 4) ∧
    ∃ (slivers : List Sliver) (activeIndex : Int),
      printSlivers (Console.mk threeHive (some (sampleSliver 2 "B")))
        = some (slivers.map rowOf, activeIndex) ∧
      slivers.Perm (threeHive.map Prod.snd) ∧
      slivers.Pairwise (fun a b => a.Id < b.Id) ∧
      ∀ hive', hive'.Perm threeHive →
        printSlivers { Console.mk threeHive (some (sampleSliver 2 "B")) with hive := hive' }
          = printSlivers (Console.mk threeHive (some (sampleSliver 2 "B"))) :=
  ⟨by decide, by decide, by decide,
    printSlivers_sorted (Console.mk threeHive (some (sampleSliver 2 "B"))) (by decide)
      (by decide)⟩

/-! ## Sizes -/

/-- The loop of `byteCountBinary` from a state in which `n` is `b / div`, at
least 1, and `div` is a power of 1024: it comes to an end with `div` the
largest power of 1024 that is at most `b`, and no product wraps. -/
theorem unitLoop_spec (b : Int) (hb : b < 2 ^ 63) : ∀ (fuel : Nat) (n div : Int) (exp : Nat),
    1 ≤ n → n < 1024 ^ fuel → div = 1024 ^ (exp + 1) → div * n ≤ b → b < div * (n + 1) →
    ∃ div' exp', unitLoop fuel n div exp = some (div', exp') ∧ div' = 1024 ^ (exp' + 1) ∧
      div' ≤ b ∧ b < 1024 * div' := by
  intro fuel
  induction fuel with
  | zero =>
    intro n div exp h1 hlt _ _ _
    simp only [pow_zero] at hlt
    omega
  | succ fuel ih =>
    intro n div exp h1 hlt hdiv hle hgt
    have hdpos : 0 < div := by rw [hdiv]; positivity
    rw [unitLoop]
    by_cases hc : n ≥ 1024
    · rw [if_pos hc]
      have htd : n.tdiv 1024 = n / 1024 := Int.tdiv_eq_ediv (by omega) (by norm_num)
      have hq1 : 1024 * (n / 1024) ≤ n := by omega
      have hq2 : n < 1024 * (n / 1024) + 1024 := by omega
      have hm1 : div * (1024 * (n / 1024)) ≤ div * n :=
        mul_le_mul_of_nonneg_left hq1 (le_of_lt hdpos)
      have hm2 : div * (n + 1) ≤ div * (1024 * (n / 1024) + 1024) :=
        mul_le_mul_of_nonneg_left (by omega) (le_of_lt hdpos)
      have hm3 : div * 1024 ≤ div * n := mul_le_mul_of_nonneg_left hc (le_of_lt hdpos)
      have hw : wrapInt64 (div * 1024) = div * 1024 := by
        have h0 : 0 ≤ div * 1024 := by positivity
        have h2 : div * 1024 < 2 ^ 63 := by omega
        simp only [wrapInt64]
        omega
      rw [htd, hw]
      apply ih (n / 1024) (div * 1024) (exp + 1) (by omega)
      · rw [pow_succ] at hlt
        omega
      · rw [hdiv]; ring
      · calc div * 1024 * (n / 1024) = div * (1024 * (n / 1024)) := by ring
          _ ≤ div * n := hm1
          _ ≤ b := hle
      · calc b < div * (n + 1) := hgt
          _ ≤ div * (1024 * (n / 1024) + 1024) := hm2
          _ = div * 1024 * (n / 1024 + 1) := by ring
    · rw [if_neg hc]
      have hm1 : div * 1 ≤ div * n := mul_le_mul_of_nonneg_left h1 (le_of_lt hdpos)
      have hm2 : div * (n + 1) ≤ div * 1024 :=
        mul_le_mul_of_nonneg_left (by omega) (le_of_lt hdpos)
      refine ⟨div, exp, rfl, hdiv, by linarith, by linarith⟩

/-- Claim C16 (unit selection in `byteCountBinary`).  For every 64-bit signed
`b` below 1024, negative values included, the function formats `b` itself
with the unit "B".  For every `b` of at least 1024 the loop terminates with
`div = 1024^(exp+1)` and `div ≤ b < 1024·div` over the integers, `div` below
2^63 (no product overflows `int64`) and `exp ≤ 5`, so that the index into
"KMGTPE" is in range, and the unit letter is the one of the largest power of
1024 that does not exceed `b`. -/
theorem byteCountBinary_unit (b : Int) (fuel : Nat) (_hlo : -2 ^ 63 ≤ b) (hhi : b < 2 ^ 63)
    (hfuel : 6 ≤ fuel) :
    (b < 1024 → byteCountBinary fuel b = some (ByteCount.bytes b)) ∧
    (1024 ≤ b → ∃ div exp unit,
      byteCountBinary fuel b = some (ByteCount.scaled b div exp unit) ∧
      div = 1024 ^ (exp + 1) ∧ div ≤ b ∧ b < 1024 * div ∧ div < 2 ^ 63 ∧ exp ≤ 5 ∧
      "KMGTPE".data[exp]? = some unit ∧
      ∀ k : Nat, (1024 : Int) ^ k ≤ b → k ≤ exp + 1) := by
  constructor
  · intro h
    simp [byteCountBinary, h]
  · intro h
    have htd : b.tdiv 1024 = b / 1024 := Int.tdiv_eq_ediv (by omega) (by norm_num)
    have hpow : (1024 : Int) ^ 6 ≤ 1024 ^ fuel := pow_le_pow_right₀ (by norm_num) hfuel
    obtain ⟨div, exp, hloop, hdiv, hle, hgt⟩ := unitLoop_spec b hhi fuel (b / 1024) 1024 0
      (by omega) (by norm_num at hpow ⊢; omega) (by norm_num) (by omega) (by omega)
    have hexp : exp ≤ 5 := by
      by_contra hcon
      have h7 : (1024 : Int) ^ 7 ≤ 1024 ^ (exp + 1) :=
        pow_le_pow_right₀ (by norm_num) (by omega)
      rw [← hdiv] at h7
      norm_num at h7 hhi
      omega
    have hunit : ∃ unit, "KMGTPE".data[exp]? = some unit := by
      interval_cases exp <;> exact ⟨_, rfl⟩
    obtain ⟨unit, hu⟩ := hunit
    refine ⟨div, exp, unit, ?_, hdiv, hle, hgt, by omega, hexp, hu, ?_⟩
    · have hnot : ¬ b < 1024 := by omega
      simp only [byteCountBinary, hnot, if_false, htd, hloop, hu]
    · intro k hk
      by_contra hcon
      have h2 : (1024 : Int) ^ (exp + 2) ≤ 1024 ^ k :=
        pow_le_pow_right₀ (by norm_num) (by omega)
      rw [pow_succ, ← hdiv] at h2
      linarith

/-- An instance: 5 GiB is formatted with `div = 1024^3` and the letter G. -/
theorem byteCountBinary_unit_witness :
    (-2 ^ 63 : Int) ≤ 5368709120 ∧ (5368709120 : Int) < 2 ^ 63 ∧ 6 ≤ 6 ∧
    byteCountBinary 6 5368709120 = some (ByteCount.scaled 5368709120 1073741824 2 'G') ∧
    byteCountBinary 6 (-5) = some (ByteCount.bytes (-5)) ∧
    ((5368709120 : Int) < 1024 →
      byteCountBinary 6 5368709120 = some (ByteCount.bytes 5368709120)) ∧
    ((1024 : Int) ≤ 5368709120 → ∃ div exp unit,
      byteCountBinary 6 5368709120 = some (ByteCount.scaled 5368709120 div exp unit) ∧
      div = 1024 ^ (exp + 1) ∧ div ≤ 5368709120 ∧ 5368709120 < 1024 * div ∧ div < 2 ^ 63 ∧
      exp ≤ 5 ∧ "KMGTPE".data[exp]? = some unit ∧
      ∀ k : Nat, (1024 : Int) ^ k ≤ 5368709120 → k ≤ exp + 1) :=
  ⟨by decide, by decide, by decide, by decide, by decide,
    byteCountBinary_unit 5368709120 6 (by decide) (by decide) (by decide)⟩

/-! ## The stager listener -/

/-- With the addresses of an interface in the form that `i.Addrs()` gives
them, an IPv4 address and the length of its mask, `checkInterface` never
gets past the first address: `net.ResolveTCPAddr` rejects it for its missing
port and the function returns false, whatever host is asked for. -/
theorem checkInterface_first_address (resolve : String → Except String String)
    (first : IPNet) (others : List IPNet) (interfaces : List (List IPNet)) (a : String)
    (hip : first.IP.data.contains ':' = false) (hbits : first.bits.data.contains ':' = false) :
    checkInterface (goNet resolve ((first :: others) :: interfaces)) a = false := by
  have hs : (IPNet.String first).data.contains ':' = false := by
    simp only [IPNet.String, String.data_append, List.contains_eq_any_beq, List.any_append,
      Bool.or_eq_false_iff] at hip hbits ⊢
    exact ⟨⟨hip, by decide⟩, hbits⟩
  have hres : goResolveTCPAddr resolve (IPNet.String first)
      = Except.error "missing port in address" := by
    simp only [goResolveTCPAddr, hs, ↓reduceIte]
  simp only [checkInterface, goNet, List.map_cons, checkInterfaces, checkAddresses, hres]

/-- Claim C12 (stager bind host), at the failing input: on a machine with the
interfaces 127.0.0.1/8 and 192.168.1.5/24, a request for the host
192.168.1.5, or for 127.0.0.1, both the IP of an address present on a local
interface, makes `checkInterface` return false and `StartTCPStagerListener`
start the job on 0.0.0.0, which succeeds with the job id. -/
theorem StartTCPStagerListener_present_host :
    (∃ addrs ∈ twoInterfaces, ∃ n ∈ addrs, n.IP = "192.168.1.5") ∧
    checkInterface stagerEnv.net "192.168.1.5" = false ∧
    (StartTCPStagerListener stagerEnv
      { Host := "192.168.1.5", Port := 8443, ProfileName := "p", Data := [] }).host
      = "0.0.0.0" ∧
    (StartTCPStagerListener stagerEnv
      { Host := "192.168.1.5", Port := 8443, ProfileName := "p", Data := [] }).result
      = Except.ok 7 ∧
    (StartTCPStagerListener stagerEnv
      { Host := "127.0.0.1", Port := 8443, ProfileName := "p", Data := [] }).host
      = "0.0.0.0" := by
  refine ⟨by decide, by decide, by decide, rfl, by decide⟩

/-! ## The command loop and the file commands -/

/-- Claim C13 (operator input and the command loop), at the failing inputs.
`lineReader` hands a line of one space on to the loop, where
`strings.Fields` gives no word and `words[0]` panics, whatever the state;
and it hands on the line `cd`, for which `cdCmd`, with a session selected,
panics on `args[0]`. -/
theorem consoleStep_index_panics :
    lineReader " " none = some " " ∧ Fields " " = [] ∧
    (∀ st env, consoleStep st " " env = StepResult.panic indexPanic) ∧
    lineReader "cd" none = some "cd" ∧ Fields "cd" = ["cd"] ∧
    (∀ hive s env,
      consoleStep (Console.mk hive (some s)) "cd" env = StepResult.panic indexPanic) := by
  have h1 : Fields " " = [] := by decide
  have h2 : Fields "cd" = ["cd"] := by decide
  have h3 : cmdHandlers "cd" = some Handler.cdCmd := by decide
  have h4 : (NewFlagSet.Parse []).1 = none := rfl
  refine ⟨by decide, h1, ?_, by decide, h2, ?_⟩
  · intro st env
    have hne : ¬ (" " = "exit") := by decide
    simp only [consoleStep, hne, if_false, h1]
  · intro hive s env
    have hne : ¬ ("cd" = "exit") := by decide
    have hcd : cdCmd (Console.mk hive (some s)) [] env.fs = Except.error indexPanic := by
      simp [cdCmd, h4]
    simp only [consoleStep, hne, if_false, h2, h3, hcd]

/-- Claim C15 (`ls [path]`), at the failing input and at every other.  With
a session selected, `lsCmd` sends one request of type "dirListReq" whose
path is ".", whatever the arguments: for `ls /tmp` the request asks for "."
and not for "/tmp", because `args` is replaced by the arguments of the flag
set before the flag set has parsed anything. -/
theorem lsCmd_path_is_dot :
    (∀ (hive : List (Int × Sliver)) (s : Sliver) (args : List String) (env : FsEnv),
      ∃ st' out, lsCmd (Console.mk hive (some s)) args env = Except.ok (st', out) ∧
        ∃ s', st'.activeSliver = some s' ∧
          s'.Send = s.Send ++ [pb.Envelope.mk env.reqId "dirListReq"
            (env.marshalDirListReq { Id := env.reqId, Path := "." })]) ∧
    ((lsCmd (Console.mk upperHive (some (sampleSliver 1 "FOO"))) ["/tmp"] fsEnv).toOption.map
      fun r => r.1.activeSliver.map fun s => s.Send.map fun e => (e.Typ, String.mk (e.Data.map Char.ofNat)))
      = some (some [("dirListReq", "r1:.")]) := by
  constructor
  · intro hive s args env
    have key : ∀ out : List FsOut,
        lsCmd (Console.mk hive (some s)) args env = Except.ok
          (Console.mk hive (some { s with
            Send := s.Send ++ [pb.Envelope.mk env.reqId "dirListReq"
              (env.marshalDirListReq { Id := env.reqId, Path := "." })],
            Resp := mapDelete (mapSet s.Resp env.reqId env.resp) env.reqId }), out) →
        ∃ st' out, lsCmd (Console.mk hive (some s)) args env = Except.ok (st', out) ∧
          ∃ s', st'.activeSliver = some s' ∧
            s'.Send = s.Send ++ [pb.Envelope.mk env.reqId "dirListReq"
              (env.marshalDirListReq { Id := env.reqId, Path := "." })] :=
      fun out h => ⟨_, out, h, _, rfl, rfl⟩
    cases hr : env.reply with
    | none =>
      apply key [FsOut.error "timeout"]
      simp [lsCmd, NewFlagSet, FlagSet.Args, FlagSet.Parse, activeSliverRequest, hr]
    | some e =>
      cases hu : env.unmarshalDirList e.Data with
      | error msg =>
        apply key [FsOut.unmarshalError msg]
        simp [lsCmd, NewFlagSet, FlagSet.Args, FlagSet.Parse, activeSliverRequest, hr, hu]
      | ok d =>
        by_cases hex : d.Exists
        · apply key [FsOut.dirList d]
          simp [lsCmd, NewFlagSet, FlagSet.Args, FlagSet.Parse, activeSliverRequest, hr, hu, hex]
        · apply key [FsOut.notExist d.Path]
          simp [lsCmd, NewFlagSet, FlagSet.Args, FlagSet.Parse, activeSliverRequest, hr, hu, hex]
  · decide
end SliverSpec
